import Mathlib

/-!
# Cardinal storage layer: archetypes, Redis key scheme, Redis component storage

A shallow embedding of `cardinal/storage/archetype.go`,
`cardinal/ecs/storage/keys.go` and `cardinal/storage/redis_storage.go`,
followed by the properties established about them.
-/

namespace Cardinal

/-! ## Basic types -/

/-- The Go type `entity.Entity`: an entity identifier. -/
abbrev Entity := Nat

/-- The Go type `component.TypeID` (a Go `int`). -/
abbrev TypeID := Int

/-- The Go interface `component.IComponentType`; two values are compared with `==`,
so a component type is represented by its identity. -/
abbrev IComponentType := TypeID

/-- The Go type `ArchetypeIndex` (a Go `int`). -/
abbrev ArchetypeIndex := Int

/-- The Go type `ComponentIndex` (a Go `int`). -/
abbrev ComponentIndex := Int

/-! ## archetype.go -/

/-- Modelled from the spec: the type `Layout` (its file is not among the sources) is
"an ordered, deduplicated description of which component types an archetype contains";
`Components()` returns that sequence and `HasComponent` tests presence in it. -/
structure Layout where
  componentTypes : List IComponentType
deriving DecidableEq, Repr

/-- Modelled from the spec: `Layout.Components()`, the component types of the layout. -/
def Layout.Components (l : Layout) : List IComponentType :=
  l.componentTypes

/-- Modelled from the spec: `Layout.HasComponent`, presence of a type in the layout. -/
def Layout.HasComponent (l : Layout) (componentType : IComponentType) : Bool :=
  l.componentTypes.contains componentType

/-- The struct `Archetype`. -/
structure Archetype where
  Index : ArchetypeIndex
  Entitys : List Entity
  ArchLayout : Layout
deriving DecidableEq, Repr

/-- The method `Archetype.SwapRemove(entityIndex)`. Indexing a Go slice outside `[0, len)` panics,
which is the result `none`; otherwise the removed entity and the updated archetype. -/
def Archetype.SwapRemove (archetype : Archetype) (entityIndex : Int) :
    Option (Entity × Archetype) :=
  if entityIndex < 0 then none
  else
    match archetype.Entitys[entityIndex.toNat]? with
    | none => none
    | some removed =>
      match archetype.Entitys[archetype.Entitys.length - 1]? with
      | none => none
      | some last =>
        let es := archetype.Entitys.set entityIndex.toNat last
        some (removed, { archetype with Entitys := es.take (archetype.Entitys.length - 1) })

/-- The method `Archetype.LayoutMatches(components)`. -/
def Archetype.LayoutMatches (archetype : Archetype) (components : List IComponentType) : Bool :=
  if archetype.ArchLayout.Components.length ≠ components.length then false
  else components.all (fun componentType => archetype.ArchLayout.HasComponent componentType)

/-- The method `Archetype.PushEntity(entity)`. -/
def Archetype.PushEntity (archetype : Archetype) (entity : Entity) : Archetype :=
  { archetype with Entitys := archetype.Entitys ++ [entity] }

/-- The method `Archetype.Count()`. -/
def Archetype.Count (archetype : Archetype) : Int :=
  archetype.Entitys.length

/-! ## keys.go -/

/-- The Go type `EntityID`, an integer type formatted with `%d`. -/
abbrev EntityID := Int

/-- The verb `%d` of `fmt.Sprintf` on an integer: decimal digits, preceded by a minus
sign for a negative value. -/
def fmtInt : Int → String
  | Int.ofNat n => Nat.repr n
  | Int.negSucc n => "-" ++ Nat.repr (n + 1)

/-- The fields of the struct `RedisStorage` that the key functions read. -/
structure RedisStorage where
  WorldID : String
  ComponentStoragePrefix : TypeID
deriving DecidableEq, Repr

/-- The key function `RedisStorage.componentDataKey`: `"COMPD:WORLD-%s:CID-%d:A-%d"`. -/
def RedisStorage.componentDataKey (r : RedisStorage) (index : ArchetypeIndex) : String :=
  "COMPD:WORLD-" ++ r.WorldID ++ ":CID-" ++ fmtInt r.ComponentStoragePrefix ++ ":A-" ++
    fmtInt index

/-- The key function `RedisStorage.componentIndexKey`: `"CIDX:WORLD-%s:CID-%d:A-%d"`. -/
def RedisStorage.componentIndexKey (r : RedisStorage) (index : ArchetypeIndex) : String :=
  "CIDX:WORLD-" ++ r.WorldID ++ ":CID-" ++ fmtInt r.ComponentStoragePrefix ++ ":A-" ++
    fmtInt index

/-- The key function `RedisStorage.entityLocationKey`: `"LOC:WORLD-%s:E-%d"`. -/
def RedisStorage.entityLocationKey (r : RedisStorage) (id : EntityID) : String :=
  "LOC:WORLD-" ++ r.WorldID ++ ":E-" ++ fmtInt id

/-- The key function `RedisStorage.entityLocationLenKey`: `"LOCL:WORLD-%s"`. -/
def RedisStorage.entityLocationLenKey (r : RedisStorage) : String :=
  "LOCL:WORLD-" ++ r.WorldID

/-- The key function `RedisStorage.archetypeStorageKey`: `"ARCH:WORLD-%s:A-%d"`. -/
def RedisStorage.archetypeStorageKey (r : RedisStorage) (ai : ArchetypeIndex) : String :=
  "ARCH:WORLD-" ++ r.WorldID ++ ":A-" ++ fmtInt ai

/-- The key function `RedisStorage.entityStorageKey`: `"ENTITY:WORLD-%s:%d"`. -/
def RedisStorage.entityStorageKey (r : RedisStorage) (id : EntityID) : String :=
  "ENTITY:WORLD-" ++ r.WorldID ++ ":" ++ fmtInt id

/-- The key function `RedisStorage.nextEntityIDKey`: `"ENTITY:WORLD-%s:NEXTID"`. -/
def RedisStorage.nextEntityIDKey (r : RedisStorage) : String :=
  "ENTITY:WORLD-" ++ r.WorldID ++ ":NEXTID"

/-- One call of one of the seven key functions, with its argument. -/
inductive KeyRequest where
  | componentData (index : ArchetypeIndex)
  | componentIndex (index : ArchetypeIndex)
  | entityLocation (id : EntityID)
  | entityLocationLen
  | archetypeStorage (ai : ArchetypeIndex)
  | entityStorage (id : EntityID)
  | nextEntityID
deriving DecidableEq, Repr

/-- Whether the key function of the request reads `ComponentStoragePrefix`. -/
def KeyRequest.usesPrefix : KeyRequest → Bool
  | .componentData _ => true
  | .componentIndex _ => true
  | _ => false

/-- The key that the requested key function returns on the storage `r`. -/
def RedisStorage.keyFor (r : RedisStorage) : KeyRequest → String
  | .componentData index => r.componentDataKey index
  | .componentIndex index => r.componentIndexKey index
  | .entityLocation id => r.entityLocationKey id
  | .entityLocationLen => r.entityLocationLenKey
  | .archetypeStorage ai => r.archetypeStorageKey ai
  | .entityStorage id => r.entityStorageKey id
  | .nextEntityID => r.nextEntityIDKey

/-- The number written by a string of decimal digits. -/
def digitsValue (cs : List Char) : Nat :=
  cs.foldl (fun acc c => 10 * acc + (c.toNat - 48)) 0

/-! ## The Redis server behind `redis.Client` -/

/-- A byte string: a Go `[]byte` or `string`, and a Redis bulk string. -/
abbrev Bytes := String

/-- A Go `error` value. -/
abbrev GoError := String

/-- A value held under a Redis key: a string or a non-empty list of strings. -/
inductive RedisValue where
  | str (s : Bytes)
  | list (l : List Bytes)
deriving DecidableEq, Repr

/-- The keyspace of the Redis server reached through the client. -/
abbrev Redis := String → Option RedisValue

/-- The keyspace with `key` bound to `v` (or unbound when `v` is `none`). -/
def Redis.put (s : Redis) (key : String) (v : Option RedisValue) : Redis :=
  fun k => if k = key then v else s k

/-- Redis binds no key to an empty list: a list that becomes empty is deleted. -/
def Redis.putList (s : Redis) (key : String) (l : List Bytes) : Redis :=
  s.put key (if l = [] then none else some (.list l))

/-- The result object `*redis.StringCmd`: the value and the error of a reply. -/
structure StringCmd where
  val : Bytes
  err : Option GoError
deriving DecidableEq, Repr

/-- The reply `redis.Nil`. -/
def redisNil : StringCmd := ⟨"", some "redis: nil"⟩

/-- The reply to a command sent to a key that holds the wrong kind of value. -/
def wrongType : GoError :=
  "WRONGTYPE Operation against a key holding the wrong kind of value"

/-- The method `StringCmd.Err()`. -/
def StringCmd.Err (cmd : StringCmd) : Option GoError := cmd.err

/-- The method `StringCmd.Result()`, the value and the error. -/
def StringCmd.Result (cmd : StringCmd) : Bytes × Option GoError := (cmd.val, cmd.err)

/-- The method `StringCmd.Bytes()`, the value as bytes and the error. -/
def StringCmd.Bytes (cmd : StringCmd) : Bytes × Option GoError := (cmd.val, cmd.err)

/-- The lowest value of a 64-bit Go `int`. -/
def minInt64 : Int := -(2 ^ 63)

/-- The highest value of a 64-bit Go `int`. -/
def maxInt64 : Int := 2 ^ 63 - 1

/-- Arithmetic on a 64-bit Go `int` wraps around. -/
def wrapInt64 (x : Int) : Int := (x + 2 ^ 63) % 2 ^ 64 - 2 ^ 63

/-- The function `strconv.Atoi`: an optional sign followed by decimal digits. The value is 0 with an
error on a syntax error, and the nearest bound with an error when out of range. -/
def Atoi (s : String) : Int × Option GoError :=
  let cs := s.data
  let neg : Bool := cs.head? = some '-'
  let ds := if cs.head? = some '-' ∨ cs.head? = some '+' then cs.tail else cs
  if ds = [] ∨ ds.all Char.isDigit = false then (0, some "invalid syntax")
  else
    let v : Int := if neg then -(digitsValue ds : Int) else (digitsValue ds : Int)
    if v < minInt64 then (minInt64, some "value out of range")
    else if maxInt64 < v then (maxInt64, some "value out of range")
    else (v, none)

/-- The method `StringCmd.Int()`. -/
def StringCmd.Int (cmd : StringCmd) : Int × Option GoError :=
  match cmd.err with
  | some e => (0, some e)
  | none => Atoi cmd.val

/-- The position in a list of length `len` that a Redis index denotes: a negative
index counts from the tail. -/
def redisIndex (len : Nat) (index : Int) : Option Nat :=
  if 0 ≤ index then
    (if index.toNat < len then some index.toNat else none)
  else
    (if 0 ≤ (len : Int) + index then some ((len : Int) + index).toNat else none)

/-- The command `GET key`. -/
def Redis.Get (s : Redis) (key : String) : StringCmd :=
  match s key with
  | none => redisNil
  | some (.str v) => ⟨v, none⟩
  | some (.list _) => ⟨"", some wrongType⟩

/-- The command `SET key value` (no expiry): the new keyspace; it never fails. -/
def Redis.Set (s : Redis) (key : String) (value : Bytes) : Redis :=
  s.put key (some (.str value))

/-- The command `LPUSH key value`: the value is inserted at the head of the list. -/
def Redis.LPush (s : Redis) (key : String) (value : Bytes) : Redis × Option GoError :=
  match s key with
  | none => (s.putList key [value], none)
  | some (.list l) => (s.putList key (value :: l), none)
  | some (.str _) => (s, some wrongType)

/-- The command `LINDEX key index`. -/
def Redis.LIndex (s : Redis) (key : String) (index : Int) : StringCmd :=
  match s key with
  | none => redisNil
  | some (.str _) => ⟨"", some wrongType⟩
  | some (.list l) =>
    match redisIndex l.length index with
    | none => redisNil
    | some i =>
      match l[i]? with
      | none => redisNil
      | some v => ⟨v, none⟩

/-- The command `LSET key index value`. -/
def Redis.LSet (s : Redis) (key : String) (index : Int) (value : Bytes) :
    Redis × Option GoError :=
  match s key with
  | none => (s, some "ERR no such key")
  | some (.str _) => (s, some wrongType)
  | some (.list l) =>
    match redisIndex l.length index with
    | none => (s, some "ERR index out of range")
    | some i => (s.putList key (l.set i value), none)

/-- The list without its first `n` elements equal to `v`. -/
def removeFirst (v : Bytes) : Nat → List Bytes → List Bytes
  | _, [] => []
  | n, x :: xs =>
    if n = 0 then x :: xs
    else if x = v then removeFirst v (n - 1) xs
    else x :: removeFirst v n xs

/-- The command `LREM key count value`: removes the first `count` elements equal to
`value` from the head when `count > 0`, from the tail when `count < 0`, and all of
them when `count = 0`. -/
def Redis.LRem (s : Redis) (key : String) (count : Int) (value : Bytes) :
    Redis × Option GoError :=
  match s key with
  | none => (s, none)
  | some (.str _) => (s, some wrongType)
  | some (.list l) =>
    if 0 < count then (s.putList key (removeFirst value count.toNat l), none)
    else if count < 0 then
      (s.putList key (removeFirst value (-count).toNat l.reverse).reverse, none)
    else (s.putList key (l.filter (fun x => x ≠ value)), none)

/-! ## redis_storage.go -/

/-- The struct `redisStorage` (the logger is left out); `c` is the keyspace of the
server that the client talks to. -/
structure redisStorage where
  worldID : String
  componentStoragePrefix : TypeID
  c : Redis

/-- Modelled from the spec: the method `componentDataKey` of `redisStorage`, whose file
is not among the sources; the key pattern is `COMPD:WORLD-W:CID-C:A-A`, as computed by
the function of the same name in keys.go. -/
def redisStorage.componentDataKey (r : redisStorage) (index : ArchetypeIndex) : String :=
  (RedisStorage.mk r.worldID r.componentStoragePrefix).componentDataKey index

/-- Modelled from the spec: the method `componentIndexKey` of `redisStorage`, whose file
is not among the sources; the key pattern is `CIDX:WORLD-W:CID-C:A-A`, as computed by
the function of the same name in keys.go. -/
def redisStorage.componentIndexKey (r : redisStorage) (index : ArchetypeIndex) : String :=
  (RedisStorage.mk r.worldID r.componentStoragePrefix).componentIndexKey index

/-- The method `redisStorage.GetComponentIndexStorage(cid)`. -/
def redisStorage.GetComponentIndexStorage (r : redisStorage) (cid : TypeID) : redisStorage :=
  { r with componentStoragePrefix := cid }

/-- The method `redisStorage.ComponentIndex(ai)`. -/
def redisStorage.ComponentIndex (r : redisStorage) (ai : ArchetypeIndex) :
    Cardinal.ComponentIndex × Bool :=
  let key := r.componentIndexKey ai
  let res := r.c.Get key
  let result := res.Result.1
  if result.length = 0 then (0, false)
  else
    let ret := res.Int.1
    (ret, true)

/-- The method `redisStorage.SetIndex(index, index2)`. -/
def redisStorage.SetIndex (r : redisStorage) (index : ArchetypeIndex)
    (index2 : Cardinal.ComponentIndex) : redisStorage :=
  let key := r.componentIndexKey index
  { r with c := r.c.Set key (fmtInt index2) }

/-- The method `redisStorage.IncrementIndex(index)`. -/
def redisStorage.IncrementIndex (r : redisStorage) (index : ArchetypeIndex) : redisStorage :=
  let idx := (r.ComponentIndex index).1
  let key := r.componentIndexKey index
  let newIdx := wrapInt64 (idx + 1)
  { r with c := r.c.Set key (fmtInt newIdx) }

/-- The method `redisStorage.DecrementIndex(index)`. -/
def redisStorage.DecrementIndex (r : redisStorage) (index : ArchetypeIndex) : redisStorage :=
  let idx := (r.ComponentIndex index).1
  let key := r.componentIndexKey index
  let newIdx := wrapInt64 (idx - 1)
  { r with c := r.c.Set key (fmtInt newIdx) }

/-- The method `redisStorage.GetComponentStorage(cid)`. -/
def redisStorage.GetComponentStorage (r : redisStorage) (cid : TypeID) : redisStorage :=
  { r with componentStoragePrefix := cid }

/-- The method `redisStorage.PushComponent(component, index)`; the argument `componentNew` is what
`component.New()` returns, the serialized new component or an error. -/
def redisStorage.PushComponent (r : redisStorage) (componentNew : Except GoError Bytes)
    (index : ArchetypeIndex) : redisStorage × Option GoError :=
  let key := r.componentDataKey index
  match componentNew with
  | .error err => (r, some err)
  | .ok componentBz => ({ r with c := (r.c.LPush key componentBz).1 }, none)

/-- The method `redisStorage.Component(archetypeIndex, componentIndex)`; `none` is the Go `nil`. -/
def redisStorage.Component (r : redisStorage) (archetypeIndex : ArchetypeIndex)
    (componentIndex : Cardinal.ComponentIndex) : Option Bytes :=
  let key := r.componentDataKey archetypeIndex
  let res := r.c.LIndex key componentIndex
  match res.Err with
  | some _ => none
  | none => some res.Bytes.1

/-- The method `redisStorage.SetComponent(archetypeIndex, componentIndex, compBz)`. -/
def redisStorage.SetComponent (r : redisStorage) (archetypeIndex : ArchetypeIndex)
    (componentIndex : Cardinal.ComponentIndex) (compBz : Bytes) : redisStorage :=
  let key := r.componentDataKey archetypeIndex
  { r with c := (r.c.LSet key componentIndex compBz).1 }

/-- The method `redisStorage.MoveComponent(source, index, dst)`. -/
def redisStorage.MoveComponent (r : redisStorage) (source : ArchetypeIndex)
    (index : Cardinal.ComponentIndex) (dst : ArchetypeIndex) : redisStorage :=
  let sKey := r.componentDataKey source
  let dKey := r.componentDataKey dst
  let res := r.c.LIndex sKey index
  let c1 := (r.c.LSet sKey index "DELETE").1
  let componentBz := res.Bytes.1
  let c2 := (c1.LPush dKey componentBz).1
  let c3 := (c2.LRem sKey 1 "DELETE").1
  { r with c := c3 }

/-- The method `redisStorage.delete(index, componentIndex)`. -/
def redisStorage.delete (r : redisStorage) (index : ArchetypeIndex)
    (componentIndex : Cardinal.ComponentIndex) : redisStorage :=
  let sKey := r.componentDataKey index
  let c1 := (r.c.LSet sKey componentIndex "DELETE").1
  let c2 := (c1.LRem sKey 1 "DELETE").1
  { r with c := c2 }

/-- The method `redisStorage.SwapRemove(archetypeIndex, componentIndex)`: the storage afterwards
and the returned bytes, which are always the Go `nil`. -/
def redisStorage.SwapRemove (r : redisStorage) (archetypeIndex : ArchetypeIndex)
    (componentIndex : Cardinal.ComponentIndex) : redisStorage × Option Bytes :=
  (r.delete archetypeIndex componentIndex, none)

/-- The method `redisStorage.Contains(archetypeIndex, componentIndex)`. -/
def redisStorage.Contains (r : redisStorage) (archetypeIndex : ArchetypeIndex)
    (componentIndex : Cardinal.ComponentIndex) : Bool :=
  let key := r.componentDataKey archetypeIndex
  let res := r.c.LIndex key componentIndex
  let result := res.Result.1
  decide (0 < result.length)

/-- The list held under `key`: empty when the key is unbound, and `none` when the key
holds a string instead of a list. -/
def Redis.listAt (s : Redis) (key : String) : Option (List Bytes) :=
  match s key with
  | none => some []
  | some (.list l) => some l
  | some (.str _) => none

/-- The payload list of an archetype for the current component type: the list held
under the component data key. -/
def redisStorage.payloadList (r : redisStorage) (index : ArchetypeIndex) :
    Option (List Bytes) :=
  r.c.listAt (r.componentDataKey index)

/-- The storage `r` with the payload list of archetype `index` set to `l`. -/
def redisStorage.withPayloads (r : redisStorage) (index : ArchetypeIndex)
    (l : List Bytes) : redisStorage :=
  { r with c := r.c.putList (r.componentDataKey index) l }

/-- A storage on an empty server. -/
def redisStorage.new (worldID : String) (cid : TypeID) : redisStorage :=
  ⟨worldID, cid, fun _ => none⟩

/-- The result of the member-list swap-remove on a payload list: `Archetype.SwapRemove`
applied to a list of payloads. -/
def swapRemoveList (l : List Bytes) (p : Int) : Option (Bytes × List Bytes) :=
  if p < 0 then none
  else
    match l[p.toNat]? with
    | none => none
    | some removed =>
      match l[l.length - 1]? with
      | none => none
      | some last => some (removed, (l.set p.toNat last).take (l.length - 1))

/-! ## plugin_receipt.go -/

/-- Addition on a Go `uint64` wraps around. -/
def addUint64 (a b : Nat) : Nat := (a + b) % 2 ^ 64

/-- Subtraction on a Go `uint64` wraps around. -/
def subUint64 (a b : Nat) : Nat := (a + 2 ^ 64 - b % 2 ^ 64) % 2 ^ 64

/-- The fields of `receipt.Receipt` that `queryReceipts` reads. -/
structure Receipt where
  TxHash : Bytes
  Result : String
  Errs : List GoError
deriving DecidableEq, Repr

/-- The struct `receiptEntry`. -/
structure receiptEntry where
  TxHash : String
  Tick : Nat
  Result : String
  Errors : List GoError
deriving DecidableEq, Repr

/-- The struct `listTxReceiptsRequest`. -/
structure listTxReceiptsRequest where
  StartTick : Nat
deriving DecidableEq, Repr

/-- The struct `listTxReceiptsResponse`. -/
structure listTxReceiptsResponse where
  StartTick : Nat
  EndTick : Nat
  Receipts : List receiptEntry
deriving DecidableEq, Repr

/-- The methods of the interface `engine.Context` that `queryReceipts` calls: the
current tick, the receipt history size and the lookup of the receipts of a tick. -/
structure Context where
  CurrentTick : Nat
  ReceiptHistorySize : Nat
  GetTransactionReceiptsForTick : Nat → Except GoError (List Receipt)

/-- The entry that `queryReceipts` appends for the receipt `r` found at tick `t`. -/
def receiptEntryOf (t : Nat) (r : Receipt) : receiptEntry :=
  { TxHash := r.TxHash, Tick := t, Result := r.Result, Errors := r.Errs }

/-- The loop `for t := reply.StartTick; t < reply.EndTick; t++` of `queryReceipts`,
run for at most `fuel` iterations from the tick `t` with the receipts `acc` so far. -/
def receiptsLoop (ctx : Context) (endTick : Nat) :
    Nat → Nat → List receiptEntry → List receiptEntry
  | 0, _, acc => acc
  | fuel + 1, t, acc =>
    if t < endTick then
      match ctx.GetTransactionReceiptsForTick t with
      | .error _ => receiptsLoop ctx endTick fuel (addUint64 t 1) acc
      | .ok currReceipts =>
        if currReceipts.length = 0 then receiptsLoop ctx endTick fuel (addUint64 t 1) acc
        else
          receiptsLoop ctx endTick fuel (addUint64 t 1)
            (acc ++ currReceipts.map (receiptEntryOf t))
    else acc

/-- The function `queryReceipts(ctx, req)`: the reply and the error, which is always
nil. The loop is given as many iterations as there are ticks from the start tick to the
end tick. -/
def queryReceipts (ctx : Context) (req : listTxReceiptsRequest) :
    listTxReceiptsResponse × Option GoError :=
  let endTick := ctx.CurrentTick
  let size := ctx.ReceiptHistorySize
  let startTick0 := if size > endTick then 0 else subUint64 endTick size
  let startTick :=
    if req.StartTick > endTick then endTick
    else if req.StartTick > startTick0 then req.StartTick
    else startTick0
  ({ StartTick := startTick, EndTick := endTick,
     Receipts := receiptsLoop ctx endTick (endTick - startTick) startTick [] }, none)

/-- The receipts of the tick `t` as the reply is to list them: for a successful lookup
one entry per receipt, in the order of the lookup, carrying the receipt's hash, result
and errors and labelled with `t`; none when the lookup fails. -/
def receiptsOfTick (ctx : Context) (t : Nat) : List receiptEntry :=
  match ctx.GetTransactionReceiptsForTick t with
  | .error _ => []
  | .ok rs =>
    rs.map (fun r => { TxHash := r.TxHash, Tick := t, Result := r.Result, Errors := r.Errs })

/-- The receipts of the ticks `t` with `startTick <= t < endTick`, in tick order. -/
def receiptsOfRange (ctx : Context) (startTick endTick : Nat) : List receiptEntry :=
  (List.range' startTick (endTick - startTick)).flatMap (receiptsOfTick ctx)

/-- A context at tick 5 with a history of 3 ticks, in which tick 2 has one receipt,
tick 3 has two, the lookup of tick 4 fails and every other tick has none. -/
def sampleContext : Context where
  CurrentTick := 5
  ReceiptHistorySize := 3
  GetTransactionReceiptsForTick := fun t =>
    if t = 2 then .ok [⟨"h2", "r2", []⟩]
    else if t = 3 then .ok [⟨"h3a", "r3a", []⟩, ⟨"h3b", "r3b", ["e"]⟩]
    else if t = 4 then .error "no receipts"
    else .ok []

/-! ## Properties of archetype.go -/

/-- The member list left by a swap-remove at position `p`, as a list expression. -/
theorem swapRemove_list_getElem? (l : List Entity) (p q : Nat) (x : Entity)
    (hq : q < l.length - 1) :
    ((l.set p x).take (l.length - 1))[q]? = if p = q then some x else l[q]? := by
  have hq2 : q < l.length := by omega
  rw [List.getElem?_take_of_lt hq, List.getElem?_set]
  by_cases h : p = q
  · subst h; simp [hq2]
  · simp [h]

/-- C1: for a member list of length n >= 1 and a position p with 0 <= p < n,
`Archetype.SwapRemove(p)` returns the member that was at p and leaves a list of length
n-1 in which, when p < n-1, slot p holds the former last member and every other
remaining slot holds the same member as before; so removing the last member moves no
other member, and removing a non-last member moves exactly the former last one. -/
theorem Archetype.SwapRemove_spec (a : Archetype) (p : Int)
    (h0 : 0 ≤ p) (hp : p < a.Entitys.length) :
    ∃ removed a2, a.SwapRemove p = some (removed, a2) ∧
      a.Entitys[p.toNat]? = some removed ∧
      a2.Index = a.Index ∧ a2.ArchLayout = a.ArchLayout ∧
      a2.Entitys.length = a.Entitys.length - 1 ∧
      (p.toNat < a.Entitys.length - 1 →
        a2.Entitys[p.toNat]? = a.Entitys[a.Entitys.length - 1]?) ∧
      (∀ q : Nat, q < a.Entitys.length - 1 → q ≠ p.toNat →
        a2.Entitys[q]? = a.Entitys[q]?) ∧
      (p.toNat = a.Entitys.length - 1 →
        ∀ q : Nat, q < a.Entitys.length - 1 → a2.Entitys[q]? = a.Entitys[q]?) := by
  obtain ⟨n, rfl⟩ := Int.eq_ofNat_of_zero_le h0
  have hn : n < a.Entitys.length := by exact_mod_cast hp
  have hl : a.Entitys.length - 1 < a.Entitys.length := by omega
  obtain ⟨removed, hr⟩ : ∃ e, a.Entitys[n]? = some e :=
    ⟨_, List.getElem?_eq_getElem hn⟩
  obtain ⟨last, hlast⟩ : ∃ e, a.Entitys[a.Entitys.length - 1]? = some e :=
    ⟨_, List.getElem?_eq_getElem hl⟩
  have hrun : a.SwapRemove (n : Int) = some (removed,
      { a with Entitys := (a.Entitys.set n last).take (a.Entitys.length - 1) }) := by
    simp [Archetype.SwapRemove, hr, hlast]
  simp only [Int.toNat_ofNat]
  refine ⟨removed, _, hrun, hr, rfl, rfl, ?_, ?_, ?_, ?_⟩
  · simp [List.length_take, List.length_set]
  · intro hlt
    rw [swapRemove_list_getElem? _ _ _ _ hlt, hlast]
    simp
  · intro q hq hne
    rw [swapRemove_list_getElem? _ _ _ _ hq]
    simp [Ne.symm hne]
  · intro hlast2 q hq
    rw [swapRemove_list_getElem? _ _ _ _ hq]
    have : n ≠ q := by omega
    simp [this]

/-- C1, at a concrete archetype: removing position 0 of members 11, 22, 33. -/
theorem Archetype.SwapRemove_spec_witness :
    ∃ removed a2, (Archetype.mk 0 [11, 22, 33] ⟨[1, 2]⟩).SwapRemove 0 = some (removed, a2) ∧
      (Archetype.mk 0 [11, 22, 33] ⟨[1, 2]⟩).Entitys[(0 : Int).toNat]? = some removed ∧
      a2.Index = 0 ∧ a2.ArchLayout = ⟨[1, 2]⟩ ∧
      a2.Entitys.length = 3 - 1 ∧
      ((0 : Int).toNat < 3 - 1 → a2.Entitys[(0 : Int).toNat]? = [11, 22, 33][3 - 1]?) ∧
      (∀ q : Nat, q < 3 - 1 → q ≠ (0 : Int).toNat → a2.Entitys[q]? = [11, 22, 33][q]?) ∧
      ((0 : Int).toNat = 3 - 1 →
        ∀ q : Nat, q < 3 - 1 → a2.Entitys[q]? = [11, 22, 33][q]?) :=
  Archetype.SwapRemove_spec (Archetype.mk 0 [11, 22, 33] ⟨[1, 2]⟩) 0 (by decide) (by decide)

/-- The method `Archetype.LayoutMatches` is exactly the length test together with the
one-directional containment test. -/
theorem Archetype.LayoutMatches_iff (a : Archetype) (cs : List IComponentType) :
    a.LayoutMatches cs = true ↔
      a.ArchLayout.Components.length = cs.length ∧ ∀ c ∈ cs, c ∈ a.ArchLayout.Components := by
  unfold Archetype.LayoutMatches
  by_cases h : a.ArchLayout.Components.length = cs.length
  · simp [h, Layout.HasComponent, Layout.Components]
  · simp [h]

/-- C6 as stated fails: with layout 1, 2 and the list 1, 1 the lengths agree and every
listed type is in the layout, so `LayoutMatches` answers true, yet type 2 of the layout
does not occur in the list. -/
theorem Archetype.LayoutMatches_setEq_counterexample :
    ¬ ((Archetype.mk 0 [] ⟨[1, 2]⟩).LayoutMatches [1, 1] = true ↔
        ((∀ c ∈ ([1, 1] : List IComponentType), c ∈ (Layout.mk [1, 2]).Components) ∧
         (∀ t ∈ (Layout.mk [1, 2]).Components, t ∈ ([1, 1] : List IComponentType)))) := by
  decide

/-- C6, amended: `LayoutMatches` is true iff the lengths agree and every listed type is
in the layout; when the layout and the list are both duplicate-free this is the same as
equality of the two as sets of component types. -/
theorem Archetype.LayoutMatches_setEq_of_nodup (a : Archetype) (cs : List IComponentType) :
    (a.LayoutMatches cs = true ↔
      a.ArchLayout.Components.length = cs.length ∧ ∀ c ∈ cs, c ∈ a.ArchLayout.Components) ∧
    (a.ArchLayout.Components.Nodup → cs.Nodup →
      (a.LayoutMatches cs = true ↔
        (∀ c ∈ cs, c ∈ a.ArchLayout.Components) ∧ (∀ t ∈ a.ArchLayout.Components, t ∈ cs))) := by
  refine ⟨Archetype.LayoutMatches_iff a cs, fun hl hc => ?_⟩
  rw [Archetype.LayoutMatches_iff]
  constructor
  · rintro ⟨hlen, hsub⟩
    have hperm : cs.Perm a.ArchLayout.Components :=
      (List.subperm_of_subset hc hsub).perm_of_length_le (le_of_eq hlen)
    exact ⟨hsub, fun t ht => hperm.mem_iff.mpr ht⟩
  · rintro ⟨h1, h2⟩
    have hperm : cs.Perm a.ArchLayout.Components :=
      (List.perm_ext_iff_of_nodup hc hl).mpr (fun x => ⟨h1 x, h2 x⟩)
    exact ⟨hperm.length_eq.symm, h1⟩

/-- C6, amended, at the layout 2, 1 and the list 1, 2. -/
theorem Archetype.LayoutMatches_setEq_of_nodup_witness :
    (Archetype.mk 0 [] ⟨[2, 1]⟩).LayoutMatches [1, 2] = true ↔
      (∀ c ∈ ([1, 2] : List IComponentType), c ∈ (Layout.mk [2, 1]).Components) ∧
      (∀ t ∈ (Layout.mk [2, 1]).Components, t ∈ ([1, 2] : List IComponentType)) :=
  (Archetype.LayoutMatches_setEq_of_nodup (Archetype.mk 0 [] ⟨[2, 1]⟩) [1, 2]).2
    (by decide) (by decide)

/-- C7: `LayoutMatches` gives the same answer on two lists that are permutations of
each other, and answers false whenever the list's length differs from the number of
component types of the layout; with Position = 0, Velocity = 1, Health = 2 the list
Position, Velocity matches the layout Velocity, Position and the list
Position, Velocity, Health does not. -/
theorem Archetype.LayoutMatches_perm (a : Archetype) (l1 l2 : List IComponentType)
    (h : l1.Perm l2) :
    a.LayoutMatches l1 = a.LayoutMatches l2 ∧
    (l1.length ≠ a.ArchLayout.Components.length → a.LayoutMatches l1 = false) ∧
    (Archetype.mk 0 [] ⟨[1, 0]⟩).LayoutMatches [0, 1] = true ∧
    (Archetype.mk 0 [] ⟨[1, 0]⟩).LayoutMatches [0, 1, 2] = false ∧
    (Archetype.mk 0 [] ⟨[0, 1, 2]⟩).LayoutMatches [0, 1] = false := by
  refine ⟨?_, ?_, by decide, by decide, by decide⟩
  · rw [Bool.eq_iff_iff, Archetype.LayoutMatches_iff, Archetype.LayoutMatches_iff,
      h.length_eq]
    constructor
    · rintro ⟨hlen, hsub⟩
      exact ⟨hlen, fun c hc => hsub c (h.mem_iff.mpr hc)⟩
    · rintro ⟨hlen, hsub⟩
      exact ⟨hlen, fun c hc => hsub c (h.mem_iff.mp hc)⟩
  · intro hne
    cases hm : a.LayoutMatches l1
    · rfl
    · exact absurd ((Archetype.LayoutMatches_iff a l1).mp hm).1.symm hne

/-- C7, at the layout 1, 0 and the lists 0, 1 and 1, 0. -/
theorem Archetype.LayoutMatches_perm_witness :
    (Archetype.mk 0 [] ⟨[1, 0]⟩).LayoutMatches [0, 1] =
      (Archetype.mk 0 [] ⟨[1, 0]⟩).LayoutMatches [1, 0] :=
  (Archetype.LayoutMatches_perm (Archetype.mk 0 [] ⟨[1, 0]⟩) [0, 1] [1, 0]
    (List.Perm.swap 1 0 [])).1

/-! ## Decimal formatting -/

theorem digitsValue_append_singleton (cs : List Char) (c : Char) :
    digitsValue (cs ++ [c]) = 10 * digitsValue cs + (c.toNat - 48) := by
  simp [digitsValue, List.foldl_append]

theorem digitChar_toNat : ∀ d < 10, (Nat.digitChar d).toNat = 48 + d := by decide

theorem digitChar_isDigit : ∀ d < 10, (Nat.digitChar d).isDigit = true := by decide

theorem toDigitsCore_acc (fuel : Nat) : ∀ (n : Nat) (ds : List Char),
    Nat.toDigitsCore 10 fuel n ds = Nat.toDigitsCore 10 fuel n [] ++ ds := by
  induction fuel with
  | zero => intro n ds; simp [Nat.toDigitsCore]
  | succ f ih =>
    intro n ds
    simp only [Nat.toDigitsCore]
    split
    · simp
    · rw [ih (n / 10) (_ :: ds), ih (n / 10) [_]]; simp

theorem toDigitsCore_succ (f n : Nat) :
    Nat.toDigitsCore 10 (f + 1) n [] =
      (if n / 10 = 0 then [] else Nat.toDigitsCore 10 f (n / 10) []) ++
        [Nat.digitChar (n % 10)] := by
  simp only [Nat.toDigitsCore]
  split
  · simp
  · rw [toDigitsCore_acc]

theorem toDigitsCore_value (fuel : Nat) : ∀ n, n < fuel →
    digitsValue (Nat.toDigitsCore 10 fuel n []) = n := by
  induction fuel with
  | zero => intro n h; omega
  | succ f ih =>
    intro n hn
    rw [toDigitsCore_succ, digitsValue_append_singleton,
      digitChar_toNat _ (Nat.mod_lt _ (by decide))]
    split
    · rename_i h0
      simp [digitsValue]; omega
    · rename_i h0
      rw [ih (n / 10) (by omega)]; omega

theorem toDigitsCore_isDigit (fuel : Nat) : ∀ n, ∀ c ∈ Nat.toDigitsCore 10 fuel n [],
    c.isDigit = true := by
  induction fuel with
  | zero => intro n c h; simp [Nat.toDigitsCore] at h
  | succ f ih =>
    intro n c hc
    rw [toDigitsCore_succ] at hc
    rcases List.mem_append.mp hc with h | h
    · split at h
      · simp at h
      · exact ih _ c h
    · rw [List.mem_singleton.mp h]
      exact digitChar_isDigit _ (Nat.mod_lt _ (by decide))

theorem repr_data (n : Nat) : (Nat.repr n).data = Nat.toDigits 10 n := rfl

theorem repr_value (n : Nat) : digitsValue (Nat.repr n).data = n :=
  toDigitsCore_value (n + 1) n (by omega)

theorem repr_isDigit (n : Nat) : ∀ c ∈ (Nat.repr n).data, c.isDigit = true :=
  toDigitsCore_isDigit (n + 1) n

theorem repr_ne_nil (n : Nat) : (Nat.repr n).data ≠ [] := by
  rw [repr_data, Nat.toDigits, toDigitsCore_succ]; simp

theorem repr_injective {m n : Nat} (h : Nat.repr m = Nat.repr n) : m = n := by
  rw [← repr_value m, ← repr_value n, h]

/-- The characters of a formatted integer are decimal digits or the minus sign. -/
theorem fmtInt_chars (i : Int) : ∀ c ∈ (fmtInt i).data, c.isDigit = true ∨ c = '-' := by
  intro c hc
  cases i with
  | ofNat n => exact Or.inl (repr_isDigit n c hc)
  | negSucc n =>
    simp only [fmtInt, String.data_append, List.mem_append] at hc
    rcases hc with h | h
    · right; simpa using h
    · exact Or.inl (repr_isDigit _ c h)

theorem fmtInt_injective {i j : Int} (h : fmtInt i = fmtInt j) : i = j := by
  cases i with
  | ofNat m =>
    cases j with
    | ofNat n => simp only [fmtInt] at h; rw [repr_injective h]
    | negSucc n =>
      exfalso
      simp only [fmtInt] at h
      have h2 := congrArg String.data h
      rw [String.data_append] at h2
      have hm : '-' ∈ (Nat.repr m).data := by rw [h2]; simp
      have := repr_isDigit m _ hm
      revert this; decide
  | negSucc m =>
    cases j with
    | ofNat n =>
      exfalso
      simp only [fmtInt] at h
      have h2 := congrArg String.data h
      rw [String.data_append] at h2
      have hm : '-' ∈ (Nat.repr n).data := by rw [← h2]; simp
      have := repr_isDigit n _ hm
      revert this; decide
    | negSucc n =>
      simp only [fmtInt] at h
      have h2 := congrArg String.data h
      rw [String.data_append, String.data_append] at h2
      have h3 := List.append_cancel_left h2
      have h4 : Nat.repr (m + 1) = Nat.repr (n + 1) := String.ext_iff.mpr h3
      have := repr_injective h4
      have : m = n := by omega
      rw [this]

/-- A list splits in only one way around the last occurrence of an element. -/
theorem append_cons_inj_of_not_mem {α : Type} {c : α} : ∀ {x1 x2 r1 r2 : List α},
    x1 ++ c :: r1 = x2 ++ c :: r2 → c ∉ r1 → c ∉ r2 → x1 = x2 ∧ r1 = r2
  | [], [], r1, r2, h, _, _ => by simpa using h
  | [], y :: ys, r1, r2, h, h1, _ => by
    exfalso; apply h1
    simp only [List.nil_append, List.cons_append, List.cons.injEq] at h
    rw [h.2]; simp
  | y :: ys, [], r1, r2, h, _, h2 => by
    exfalso; apply h2
    simp only [List.nil_append, List.cons_append, List.cons.injEq] at h
    rw [← h.2]; simp
  | y :: ys, z :: zs, r1, r2, h, h1, h2 => by
    simp only [List.cons_append, List.cons.injEq] at h
    obtain ⟨e1, e2⟩ := append_cons_inj_of_not_mem h.2 h1 h2
    exact ⟨by rw [h.1, e1], e2⟩

theorem digitChar_ne_zero : ∀ d < 10, d ≠ 0 → Nat.digitChar d ≠ '0' := by decide

/-- A positive number is written without a leading zero. -/
theorem toDigitsCore_head (fuel : Nat) : ∀ n, 0 < n → n < fuel →
    (Nat.toDigitsCore 10 fuel n []).head? ≠ some '0' := by
  induction fuel with
  | zero => intro n _ h; omega
  | succ f ih =>
    intro n hpos hn
    rw [toDigitsCore_succ]
    split
    · rename_i h0
      have hmod : n % 10 ≠ 0 := by omega
      simpa using digitChar_ne_zero _ (Nat.mod_lt _ (by decide)) hmod
    · rename_i h0
      have hih := ih (n / 10) (by omega) (by omega)
      cases f with
      | zero => omega
      | succ g =>
        rw [toDigitsCore_succ] at hih ⊢
        simpa [List.head?_append] using hih

theorem repr_head (n : Nat) (h : (Nat.repr n).data.head? = some '0') : n = 0 := by
  by_contra hne
  exact toDigitsCore_head (n + 1) n (by omega) (by omega) h

theorem colon_not_mem_fmtInt (i : Int) : ':' ∉ (fmtInt i).data := by
  intro h
  rcases fmtInt_chars i _ h with h1 | h1
  · revert h1; decide
  · revert h1; decide

/-- A key tail `:` prefix number determines the part before it and the number. -/
theorem key_tail_inj (w1 w2 p : List Char) (i j : Int) (hp : ':' ∉ p)
    (h : w1 ++ ':' :: (p ++ (fmtInt i).data) = w2 ++ ':' :: (p ++ (fmtInt j).data)) :
    w1 = w2 ∧ i = j := by
  have hi : ':' ∉ p ++ (fmtInt i).data := by
    simp only [List.mem_append, not_or]; exact ⟨hp, colon_not_mem_fmtInt i⟩
  have hj : ':' ∉ p ++ (fmtInt j).data := by
    simp only [List.mem_append, not_or]; exact ⟨hp, colon_not_mem_fmtInt j⟩
  obtain ⟨e1, e2⟩ := append_cons_inj_of_not_mem h hi hj
  exact ⟨e1, fmtInt_injective (String.ext_iff.mpr (List.append_cancel_left e2))⟩

/-! ## Properties of keys.go -/

theorem componentKey_tail_inj (w1 w2 : List Char) (c1 c2 a1 a2 : Int)
    (h : w1 ++ ':' :: 'C' :: 'I' :: 'D' :: '-' ::
          ((fmtInt c1).data ++ ':' :: 'A' :: '-' :: (fmtInt a1).data) =
        w2 ++ ':' :: 'C' :: 'I' :: 'D' :: '-' ::
          ((fmtInt c2).data ++ ':' :: 'A' :: '-' :: (fmtInt a2).data)) :
    w1 = w2 ∧ c1 = c2 ∧ a1 = a2 := by
  obtain ⟨e1, ea⟩ := key_tail_inj
    (w1 ++ ':' :: (['C', 'I', 'D', '-'] ++ (fmtInt c1).data))
    (w2 ++ ':' :: (['C', 'I', 'D', '-'] ++ (fmtInt c2).data))
    ['A', '-'] a1 a2 (by decide) (by simpa using h)
  obtain ⟨ew, ec⟩ := key_tail_inj w1 w2 ['C', 'I', 'D', '-'] c1 c2 (by decide) e1
  exact ⟨ew, ec, ea⟩

/-- The seven key functions are jointly injective: a key determines the world id, the
key function with its argument, and, for the two component keys, the component type. -/
theorem RedisStorage.keyFor_injective (r1 r2 : RedisStorage) (q1 q2 : KeyRequest)
    (h : r1.keyFor q1 = r2.keyFor q2) :
    r1.WorldID = r2.WorldID ∧ q1 = q2 ∧
      (q1.usesPrefix = true → r1.ComponentStoragePrefix = r2.ComponentStoragePrefix) := by
  obtain ⟨w1, c1⟩ := r1
  obtain ⟨w2, c2⟩ := r2
  cases q1 <;> cases q2 <;>
    simp only [RedisStorage.keyFor, RedisStorage.componentDataKey,
      RedisStorage.componentIndexKey, RedisStorage.entityLocationKey,
      RedisStorage.entityLocationLenKey, RedisStorage.archetypeStorageKey,
      RedisStorage.entityStorageKey, RedisStorage.nextEntityIDKey] at h <;>
    try (exfalso; simp [String.ext_iff, String.data_append] at h; done)
  · simp [String.ext_iff, String.data_append] at h
    obtain ⟨ew, ec, ea⟩ := componentKey_tail_inj _ _ _ _ _ _ h
    exact ⟨String.ext_iff.mpr ew, by rw [ea], fun _ => ec⟩
  · simp [String.ext_iff, String.data_append] at h
    obtain ⟨ew, ec, ea⟩ := componentKey_tail_inj _ _ _ _ _ _ h
    exact ⟨String.ext_iff.mpr ew, by rw [ea], fun _ => ec⟩
  · simp [String.ext_iff, String.data_append] at h
    obtain ⟨ew, ee⟩ := key_tail_inj _ _ ['E', '-'] _ _ (by decide) (by simpa using h)
    exact ⟨String.ext_iff.mpr ew, by rw [ee], fun hp => by simp [KeyRequest.usesPrefix] at hp⟩
  · simp [String.ext_iff, String.data_append] at h
    exact ⟨String.ext_iff.mpr h, rfl, fun hp => by simp [KeyRequest.usesPrefix] at hp⟩
  · simp [String.ext_iff, String.data_append] at h
    obtain ⟨ew, ee⟩ := key_tail_inj _ _ ['A', '-'] _ _ (by decide) (by simpa using h)
    exact ⟨String.ext_iff.mpr ew, by rw [ee], fun hp => by simp [KeyRequest.usesPrefix] at hp⟩
  · simp [String.ext_iff, String.data_append] at h
    obtain ⟨ew, ee⟩ := key_tail_inj _ _ [] _ _ (by decide) (by simpa using h)
    exact ⟨String.ext_iff.mpr ew, by rw [ee], fun hp => by simp [KeyRequest.usesPrefix] at hp⟩
  · exfalso
    simp [String.ext_iff, String.data_append] at h
    rename_i id
    obtain ⟨_, e2⟩ := append_cons_inj_of_not_mem h (colon_not_mem_fmtInt id) (by decide)
    have hN : 'N' ∈ (fmtInt id).data := by rw [e2]; simp
    rcases fmtInt_chars id _ hN with h1 | h1
    · revert h1; decide
    · revert h1; decide
  · exfalso
    simp [String.ext_iff, String.data_append] at h
    rename_i id
    obtain ⟨_, e2⟩ := append_cons_inj_of_not_mem h (by decide) (colon_not_mem_fmtInt id)
    have hN : 'N' ∈ (fmtInt id).data := by rw [← e2]; simp
    rcases fmtInt_chars id _ hN with h1 | h1
    · revert h1; decide
    · revert h1; decide
  · simp [String.ext_iff, String.data_append] at h
    exact ⟨String.ext_iff.mpr h, rfl, fun hp => by simp [KeyRequest.usesPrefix] at hp⟩

/-- C9 as stated fails for the entity entry key: for world "1" and entity 7 the key
function `entityStorageKey` returns "ENTITY:WORLD-1:7", not "ENTITY:WORLD-1:E-7". -/
theorem RedisStorage.entityStorageKey_counterexample :
    (RedisStorage.mk "1" 0).entityStorageKey 7 ≠ "ENTITY:WORLD-1:E-7" ∧
    (RedisStorage.mk "1" 0).entityStorageKey 7 = "ENTITY:WORLD-1:7" := by
  decide

/-- C9, amended: for every world id W, component-type id C, archetype index A and
entity id E the key functions return "COMPD:WORLD-W:CID-C:A-A", "CIDX:WORLD-W:CID-C:A-A",
"LOC:WORLD-W:E-E", "LOCL:WORLD-W", "ARCH:WORLD-W:A-A", "ENTITY:WORLD-W:E" (the entity id
directly after the colon) and "ENTITY:WORLD-W:NEXTID"; each integer is written in
decimal: a non-negative n as digits whose value is n, without a leading zero unless n
is 0, and a negative one as a minus sign followed by its absolute value. -/
theorem RedisStorage.key_scheme (W : String) (C : TypeID) (A : ArchetypeIndex)
    (E : EntityID) (n : Nat) :
    (RedisStorage.mk W C).componentDataKey A =
      "COMPD:WORLD-" ++ W ++ ":CID-" ++ fmtInt C ++ ":A-" ++ fmtInt A ∧
    (RedisStorage.mk W C).componentIndexKey A =
      "CIDX:WORLD-" ++ W ++ ":CID-" ++ fmtInt C ++ ":A-" ++ fmtInt A ∧
    (RedisStorage.mk W C).entityLocationKey E = "LOC:WORLD-" ++ W ++ ":E-" ++ fmtInt E ∧
    (RedisStorage.mk W C).entityLocationLenKey = "LOCL:WORLD-" ++ W ∧
    (RedisStorage.mk W C).archetypeStorageKey A = "ARCH:WORLD-" ++ W ++ ":A-" ++ fmtInt A ∧
    (RedisStorage.mk W C).entityStorageKey E = "ENTITY:WORLD-" ++ W ++ ":" ++ fmtInt E ∧
    (RedisStorage.mk W C).nextEntityIDKey = "ENTITY:WORLD-" ++ W ++ ":NEXTID" ∧
    ((∀ c ∈ (fmtInt (n : Int)).data, c.isDigit = true) ∧
      digitsValue (fmtInt (n : Int)).data = n ∧
      ((fmtInt (n : Int)).data.head? = some '0' → n = 0) ∧
      (fmtInt (n : Int)).data ≠ [] ∧
      fmtInt (-((n : Int) + 1)) = "-" ++ fmtInt ((n : Int) + 1)) ∧
    ((RedisStorage.mk "1" 0).componentDataKey 5 = "COMPD:WORLD-1:CID-0:A-5" ∧
      (RedisStorage.mk "1" 0).componentIndexKey 4 = "CIDX:WORLD-1:CID-0:A-4" ∧
      (RedisStorage.mk "1" 0).entityLocationKey 1 = "LOC:WORLD-1:E-1" ∧
      (RedisStorage.mk "1" 0).entityLocationLenKey = "LOCL:WORLD-1" ∧
      (RedisStorage.mk "1" 0).archetypeStorageKey 12 = "ARCH:WORLD-1:A-12" ∧
      (RedisStorage.mk "1" 0).entityStorageKey 305 = "ENTITY:WORLD-1:305" ∧
      (RedisStorage.mk "1" 0).nextEntityIDKey = "ENTITY:WORLD-1:NEXTID") := by
  refine ⟨rfl, rfl, rfl, rfl, rfl, rfl, rfl, ⟨?_, ?_, ?_, ?_, ?_⟩, by decide⟩
  · exact repr_isDigit n
  · exact repr_value n
  · exact repr_head n
  · exact repr_ne_nil n
  · rfl

/-- C10: keys of two different worlds never collide, whatever the two key functions and
their arguments are (world ids are arbitrary strings); and within one world two keys
differ whenever they come from different key functions, from different arguments, or,
for the component keys, from different component types. -/
theorem RedisStorage.keys_never_collide (r1 r2 : RedisStorage) (q1 q2 : KeyRequest) :
    (r1.WorldID ≠ r2.WorldID → r1.keyFor q1 ≠ r2.keyFor q2) ∧
    (r1.WorldID = r2.WorldID →
      (q1 ≠ q2 ∨ (q1.usesPrefix = true ∧
        r1.ComponentStoragePrefix ≠ r2.ComponentStoragePrefix)) →
      r1.keyFor q1 ≠ r2.keyFor q2) := by
  constructor
  · intro hw h
    exact hw (RedisStorage.keyFor_injective r1 r2 q1 q2 h).1
  · intro _ hd h
    obtain ⟨_, hq, hc⟩ := RedisStorage.keyFor_injective r1 r2 q1 q2 h
    rcases hd with hd | ⟨hu, hd⟩
    · exact hd hq
    · exact hd (hc hu)

/-- C10, for the worlds "1" and "1:E-2" and for two archetypes of one world. -/
theorem RedisStorage.keys_never_collide_witness :
    (RedisStorage.mk "1" 0).keyFor (.entityLocation 23) ≠
      (RedisStorage.mk "1:E-2" 0).keyFor (.entityLocation 3) ∧
    (RedisStorage.mk "1" 0).keyFor (.componentData 1) ≠
      (RedisStorage.mk "1" 0).keyFor (.componentData 11) :=
  ⟨(RedisStorage.keys_never_collide ⟨"1", 0⟩ ⟨"1:E-2", 0⟩ (.entityLocation 23)
      (.entityLocation 3)).1 (by decide),
   (RedisStorage.keys_never_collide ⟨"1", 0⟩ ⟨"1", 0⟩ (.componentData 1)
      (.componentData 11)).2 rfl (Or.inl (by decide))⟩

/-! ## Properties of redis_storage.go -/

/-! ### The modelled Redis commands -/

theorem Redis.put_same (s : Redis) (k : String) (v : Option RedisValue) :
    s.put k v k = v := by
  simp [Redis.put]

theorem Redis.put_other (s : Redis) (k k2 : String) (v : Option RedisValue) (h : k2 ≠ k) :
    s.put k v k2 = s k2 := by
  simp [Redis.put, h]

theorem redisIndex_inRange (len : Nat) (p : Int) (h0 : 0 ≤ p) (hp : p < len) :
    redisIndex len p = some p.toNat := by
  have : p.toNat < len := by omega
  simp [redisIndex, h0, this]

theorem redisIndex_nonneg_lt (len : Nat) (p : Int) (i : Nat) (h0 : 0 ≤ p)
    (h : redisIndex len p = some i) : i = p.toNat ∧ i < len := by
  unfold redisIndex at h
  rw [if_pos h0] at h
  split at h
  · simp only [Option.some.injEq] at h; omega
  · simp at h

theorem wrapInt64_of_inRange (x : Int) (h1 : minInt64 ≤ x) (h2 : x ≤ maxInt64) :
    wrapInt64 x = x := by
  unfold wrapInt64
  unfold minInt64 at h1
  unfold maxInt64 at h2
  omega

theorem wrapInt64_range (x : Int) : minInt64 ≤ wrapInt64 x ∧ wrapInt64 x ≤ maxInt64 := by
  unfold wrapInt64 minInt64 maxInt64
  omega

theorem digit_ne_sign (c : Char) (h : c.isDigit = true) : c ≠ '-' ∧ c ≠ '+' := by
  constructor
  · rintro rfl; revert h; decide
  · rintro rfl; revert h; decide

theorem fmtInt_negSucc_data (n : Nat) :
    (fmtInt (Int.negSucc n)).data = '-' :: (Nat.repr (n + 1)).data := by
  simp [fmtInt, String.data_append]

/-- Reading back a formatted 64-bit integer with `strconv.Atoi` gives the integer. -/
theorem Atoi_fmtInt (v : Int) (h1 : minInt64 ≤ v) (h2 : v ≤ maxInt64) :
    Atoi (fmtInt v) = (v, none) := by
  cases v with
  | ofNat n =>
    have hne := repr_ne_nil n
    have hdig := repr_isDigit n
    obtain ⟨c, t, hct⟩ : ∃ c t, (Nat.repr n).data = c :: t := by
      cases hd : (Nat.repr n).data with
      | nil => exact absurd hd hne
      | cons c t => exact ⟨c, t, rfl⟩
    have hc := digit_ne_sign c (hdig c (by rw [hct]; simp))
    have hall : (c :: t).all Char.isDigit = true := by
      rw [List.all_eq_true]; intro x hx; exact hdig x (by rw [hct]; exact hx)
    have hval : digitsValue (c :: t) = n := by rw [← hct]; exact repr_value n
    have h1n : minInt64 ≤ (n : Int) := h1
    have h2n : (n : Int) ≤ maxInt64 := h2
    simp only [Atoi, fmtInt, hct, List.head?_cons, Option.some.injEq, hc.1, hc.2, or_self,
      if_false, hall, decide_False, Bool.false_eq_true, hval, not_lt.mpr h1n, not_lt.mpr h2n]
    simp
  | negSucc n =>
    have hne := repr_ne_nil (n + 1)
    have hdig := repr_isDigit (n + 1)
    have hall : (Nat.repr (n + 1)).data.all Char.isDigit = true := by
      rw [List.all_eq_true]; exact hdig
    have hval := repr_value (n + 1)
    have hv : -((n + 1 : Nat) : Int) = Int.negSucc n := by
      rw [Int.negSucc_eq]; push_cast; ring
    have h1n : minInt64 ≤ -((n + 1 : Nat) : Int) := by rw [hv]; exact h1
    have h2n : -((n + 1 : Nat) : Int) ≤ maxInt64 := by rw [hv]; exact h2
    have hdata := fmtInt_negSucc_data n
    simp only [Atoi, hdata, List.head?_cons, true_or, if_true, List.tail_cons, hne, hall,
      decide_True, hval, not_lt.mpr h1n, not_lt.mpr h2n]
    simp only [Bool.true_eq_false, or_self, if_false, if_true, hv]

theorem fmtInt_length_ne_zero (v : Int) : (fmtInt v).length ≠ 0 := by
  have hne : (fmtInt v).data ≠ [] := by
    cases v with
    | ofNat n => exact repr_ne_nil n
    | negSucc n => rw [fmtInt_negSucc_data]; simp
  intro h
  exact hne (List.length_eq_zero.mp h)

theorem clamp_range (v : Int) (e1 e2 : Option GoError) :
    minInt64 ≤ (if v < minInt64 then (minInt64, e1)
      else if maxInt64 < v then (maxInt64, e2) else (v, none)).1 ∧
    (if v < minInt64 then (minInt64, e1)
      else if maxInt64 < v then (maxInt64, e2) else (v, none)).1 ≤ maxInt64 := by
  split
  · simp [minInt64, maxInt64]
  · split
    · simp [minInt64, maxInt64]
    · rename_i h1 h2
      exact ⟨not_lt.mp h1, not_lt.mp h2⟩

theorem Atoi_range (s : String) : minInt64 ≤ (Atoi s).1 ∧ (Atoi s).1 ≤ maxInt64 := by
  unfold Atoi
  dsimp only
  by_cases h : ((if s.data.head? = some '-' ∨ s.data.head? = some '+' then s.data.tail
      else s.data) = [] ∨
      (if s.data.head? = some '-' ∨ s.data.head? = some '+' then s.data.tail
        else s.data).all Char.isDigit = false)
  · rw [if_pos h]; simp [minInt64, maxInt64]
  · rw [if_neg h]; exact clamp_range _ _ _

theorem Redis.listAt_putList (s : Redis) (k : String) (l : List Bytes) :
    (s.putList k l).listAt k = some l := by
  unfold Redis.listAt Redis.putList
  rw [Redis.put_same]
  by_cases h : l = []
  · simp [h]
  · simp [h]

theorem Redis.listAt_eq_of_eq (s t : Redis) (k : String) (h : t k = s k) :
    t.listAt k = s.listAt k := by
  unfold Redis.listAt; rw [h]

theorem Redis.putList_other (s : Redis) (k k2 : String) (l : List Bytes) (h : k2 ≠ k) :
    s.putList k l k2 = s k2 :=
  Redis.put_other s k k2 _ h

theorem Redis.LPush_other (s : Redis) (k k2 : String) (v : Bytes) (h : k2 ≠ k) :
    (s.LPush k v).1 k2 = s k2 := by
  unfold Redis.LPush
  split <;> simp [Redis.putList_other _ _ _ _ h]

theorem Redis.LSet_other (s : Redis) (k k2 : String) (i : Int) (v : Bytes) (h : k2 ≠ k) :
    (s.LSet k i v).1 k2 = s k2 := by
  unfold Redis.LSet
  split
  · rfl
  · rfl
  · split <;> simp [Redis.putList_other _ _ _ _ h]

theorem Redis.LRem_other (s : Redis) (k k2 : String) (n : Int) (v : Bytes) (h : k2 ≠ k) :
    (s.LRem k n v).1 k2 = s k2 := by
  unfold Redis.LRem
  split
  · rfl
  · rfl
  · split_ifs <;> simp [Redis.putList_other _ _ _ _ h]

theorem Redis.LPush_listAt (s : Redis) (k : String) (v : Bytes) (l : List Bytes)
    (h : s.listAt k = some l) : (s.LPush k v).1.listAt k = some (v :: l) := by
  unfold Redis.listAt at h
  unfold Redis.LPush
  cases hk : s k with
  | none =>
    rw [hk] at h
    simp only [Option.some.injEq] at h
    subst h
    exact Redis.listAt_putList s k [v]
  | some val =>
    rw [hk] at h
    cases val with
    | str x => simp at h
    | list l2 =>
      simp only [Option.some.injEq] at h
      subst h
      exact Redis.listAt_putList s k (v :: l2)

/-- A non-empty list read at a key is bound to that key. -/
theorem Redis.bound_of_listAt (s : Redis) (k : String) (l : List Bytes)
    (h : s.listAt k = some l) (hne : l ≠ []) : s k = some (.list l) := by
  unfold Redis.listAt at h
  cases hk : s k with
  | none => rw [hk] at h; simp only [Option.some.injEq] at h; exact absurd h.symm hne
  | some val =>
    rw [hk] at h
    cases val with
    | str x => simp at h
    | list l2 => simp only [Option.some.injEq] at h; rw [h]

theorem Redis.LSet_listAt (s : Redis) (k : String) (p : Int) (v : Bytes) (l : List Bytes)
    (h : s.listAt k = some l) (h0 : 0 ≤ p) (hp : p < l.length) :
    (s.LSet k p v).1.listAt k = some (l.set p.toNat v) := by
  have hne : l ≠ [] := by
    intro h2; rw [h2] at hp; simp at hp; omega
  have hk := Redis.bound_of_listAt s k l h hne
  unfold Redis.LSet
  rw [hk]
  simp only [redisIndex_inRange l.length p h0 hp]
  exact Redis.listAt_putList s k _

theorem Redis.LRem_one_listAt (s : Redis) (k : String) (v : Bytes) (l : List Bytes)
    (h : s.listAt k = some l) :
    (s.LRem k 1 v).1.listAt k = some (removeFirst v 1 l) := by
  unfold Redis.listAt at h
  unfold Redis.LRem
  cases hk : s k with
  | none =>
    rw [hk] at h
    simp only [Option.some.injEq] at h
    subst h
    simp [Redis.listAt, hk, removeFirst]
  | some val =>
    rw [hk] at h
    cases val with
    | str x => simp at h
    | list l2 =>
      simp only [Option.some.injEq] at h
      subst h
      simp only [Int.lt_irrefl, Int.toNat_one, zero_lt_one, if_true]
      exact Redis.listAt_putList s k _

theorem Redis.LIndex_listAt (s : Redis) (k : String) (p : Int) (l : List Bytes)
    (h : s.listAt k = some l) (h0 : 0 ≤ p) :
    s.LIndex k p = (match l[p.toNat]? with
      | none => redisNil
      | some v => ⟨v, none⟩) := by
  unfold Redis.listAt at h
  unfold Redis.LIndex
  cases hk : s k with
  | none =>
    rw [hk] at h
    simp only [Option.some.injEq] at h
    subst h
    simp
  | some val =>
    rw [hk] at h
    cases val with
    | str x => simp at h
    | list l2 =>
      simp only [Option.some.injEq] at h
      subst h
      by_cases hp : p.toNat < l2.length
      · have hp2 : p < l2.length := by omega
        simp [redisIndex_inRange l2.length p h0 hp2]
      · have : redisIndex l2.length p = none := by
          simp [redisIndex, h0, hp]
        simp [this, List.getElem?_eq_none (not_lt.mp hp)]

/-! ### Removal of the first occurrence -/

theorem removeFirst_one_eq_erase (v : Bytes) (l : List Bytes) :
    removeFirst v 1 l = l.erase v := by
  induction l with
  | nil => simp [removeFirst]
  | cons x xs ih =>
    by_cases h : x = v
    · subst h
      cases xs <;> simp [removeFirst]
    · have h2 : (x == v) = false := by simpa using h
      simp [removeFirst, h, ih, List.erase_cons, h2]

theorem removeFirst_one_length (v : Bytes) (l : List Bytes) (h : v ∈ l) :
    (removeFirst v 1 l).length + 1 = l.length := by
  rw [removeFirst_one_eq_erase, List.length_erase_of_mem h]
  have : 0 < l.length := List.length_pos_of_mem h
  omega

/-! ### The component storage of `redisStorage` -/

theorem redisStorage.dataKey_ne_indexKey (r : redisStorage) (a b : ArchetypeIndex) :
    r.componentDataKey a ≠ r.componentIndexKey b := by
  intro h
  have h2 := (RedisStorage.keyFor_injective ⟨r.worldID, r.componentStoragePrefix⟩
    ⟨r.worldID, r.componentStoragePrefix⟩ (.componentData a) (.componentIndex b) h).2.1
  simp at h2

theorem redisStorage.dataKey_injective (r : redisStorage) (a b : ArchetypeIndex)
    (h : r.componentDataKey a = r.componentDataKey b) : a = b := by
  have h2 := (RedisStorage.keyFor_injective ⟨r.worldID, r.componentStoragePrefix⟩
    ⟨r.worldID, r.componentStoragePrefix⟩ (.componentData a) (.componentData b) h).2.1
  simpa using h2

/-- Reading a position at or above 0 with `Component` is indexing the payload list. -/
theorem redisStorage.Component_eq (r : redisStorage) (A : ArchetypeIndex)
    (P : Cardinal.ComponentIndex) (l : List Bytes) (hl : r.payloadList A = some l)
    (h0 : 0 ≤ P) : r.Component A P = l[P.toNat]? := by
  unfold redisStorage.Component
  simp only [Redis.LIndex_listAt r.c _ P l hl h0]
  cases l[P.toNat]? <;> simp [StringCmd.Err, StringCmd.Bytes, redisNil]

theorem redisStorage.PushComponent_payloadList (r : redisStorage) (A : ArchetypeIndex)
    (b : Bytes) (l : List Bytes) (hl : r.payloadList A = some l) :
    (r.PushComponent (.ok b) A).1.payloadList A = some (b :: l) :=
  Redis.LPush_listAt r.c _ b l hl

theorem redisStorage.SetComponent_payloadList (r : redisStorage) (A : ArchetypeIndex)
    (P : Cardinal.ComponentIndex) (b : Bytes) (l : List Bytes)
    (hl : r.payloadList A = some l) (h0 : 0 ≤ P) (hP : P < l.length) :
    (r.SetComponent A P b).payloadList A = some (l.set P.toNat b) :=
  Redis.LSet_listAt r.c _ P b l hl h0 hP

theorem redisStorage.delete_payloadList (r : redisStorage) (A : ArchetypeIndex)
    (P : Cardinal.ComponentIndex) (l : List Bytes)
    (hl : r.payloadList A = some l) (h0 : 0 ≤ P) (hP : P < l.length) :
    (r.delete A P).payloadList A = some (removeFirst "DELETE" 1 (l.set P.toNat "DELETE")) :=
  Redis.LRem_one_listAt _ _ "DELETE" _ (Redis.LSet_listAt r.c _ P "DELETE" l hl h0 hP)

theorem redisStorage.ComponentIndex_congr (r1 r2 : redisStorage) (A : ArchetypeIndex)
    (hk : r1.componentIndexKey A = r2.componentIndexKey A)
    (hc : r1.c (r1.componentIndexKey A) = r2.c (r1.componentIndexKey A)) :
    r1.ComponentIndex A = r2.ComponentIndex A := by
  unfold redisStorage.ComponentIndex Redis.Get
  dsimp only
  rw [← hk, hc]

theorem redisStorage.ComponentIndex_of_str (r : redisStorage) (A : ArchetypeIndex) (v : Int)
    (h1 : minInt64 ≤ v) (h2 : v ≤ maxInt64)
    (hc : r.c (r.componentIndexKey A) = some (.str (fmtInt v))) :
    r.ComponentIndex A = (v, true) := by
  unfold redisStorage.ComponentIndex Redis.Get
  simp only [hc, StringCmd.Result, StringCmd.Int, Atoi_fmtInt v h1 h2]
  rw [if_neg (fmtInt_length_ne_zero v)]

theorem redisStorage.ComponentIndex_range (r : redisStorage) (A : ArchetypeIndex) :
    minInt64 ≤ (r.ComponentIndex A).1 ∧ (r.ComponentIndex A).1 ≤ maxInt64 := by
  unfold redisStorage.ComponentIndex
  dsimp only
  split
  · simp [minInt64, maxInt64]
  · unfold StringCmd.Int
    split
    · simp [minInt64, maxInt64]
    · exact Atoi_range _

theorem redisStorage.ComponentIndex_IncrementIndex (r : redisStorage) (A : ArchetypeIndex) :
    (r.IncrementIndex A).ComponentIndex A = (wrapInt64 ((r.ComponentIndex A).1 + 1), true) :=
  redisStorage.ComponentIndex_of_str _ A _ (wrapInt64_range _).1 (wrapInt64_range _).2
    (Redis.put_same _ _ _)

theorem redisStorage.ComponentIndex_DecrementIndex (r : redisStorage) (A : ArchetypeIndex) :
    (r.DecrementIndex A).ComponentIndex A = (wrapInt64 ((r.ComponentIndex A).1 - 1), true) :=
  redisStorage.ComponentIndex_of_str _ A _ (wrapInt64_range _).1 (wrapInt64_range _).2
    (Redis.put_same _ _ _)

theorem redisStorage.payloadList_IncrementIndex (r : redisStorage) (A B : ArchetypeIndex) :
    (r.IncrementIndex A).payloadList B = r.payloadList B := by
  unfold redisStorage.payloadList redisStorage.IncrementIndex Redis.Set
  dsimp only
  apply Redis.listAt_eq_of_eq
  exact Redis.put_other _ _ _ _ (redisStorage.dataKey_ne_indexKey r B A)

theorem redisStorage.payloadList_DecrementIndex (r : redisStorage) (A B : ArchetypeIndex) :
    (r.DecrementIndex A).payloadList B = r.payloadList B := by
  unfold redisStorage.payloadList redisStorage.DecrementIndex Redis.Set
  dsimp only
  apply Redis.listAt_eq_of_eq
  exact Redis.put_other _ _ _ _ (redisStorage.dataKey_ne_indexKey r B A)

theorem redisStorage.ComponentIndex_PushComponent (r : redisStorage) (A B : ArchetypeIndex)
    (b : Bytes) :
    (r.PushComponent (.ok b) B).1.ComponentIndex A = r.ComponentIndex A :=
  redisStorage.ComponentIndex_congr _ _ A rfl
    (Redis.LPush_other _ _ _ _ (redisStorage.dataKey_ne_indexKey r B A).symm)

theorem redisStorage.ComponentIndex_delete (r : redisStorage) (A B : ArchetypeIndex)
    (P : Cardinal.ComponentIndex) :
    (r.delete B P).ComponentIndex A = r.ComponentIndex A :=
  redisStorage.ComponentIndex_congr _ _ A rfl
    ((Redis.LRem_other _ _ _ _ _ (redisStorage.dataKey_ne_indexKey r B A).symm).trans
      (Redis.LSet_other _ _ _ _ _ (redisStorage.dataKey_ne_indexKey r B A).symm))

/-- C2, the code at a failing input: archetype 1 holds the payloads "x", "y" and
archetype 2 holds "b0"; `MoveComponent(1, 0, 2)` leaves "y" in archetype 1 and puts "x"
at the head of archetype 2's list, so position 1 (the previous length of that list) reads
"b0", the moved payload "x" is read at position 0, and "b0" has left position 0. -/
theorem redisStorage.MoveComponent_prepends :
    ((((redisStorage.new "w" 0).withPayloads 1 ["x", "y"]).withPayloads 2 ["b0"]).MoveComponent
        1 0 2).payloadList 1 = some ["y"] ∧
    ((((redisStorage.new "w" 0).withPayloads 1 ["x", "y"]).withPayloads 2 ["b0"]).MoveComponent
        1 0 2).payloadList 2 = some ["x", "b0"] ∧
    ((((redisStorage.new "w" 0).withPayloads 1 ["x", "y"]).withPayloads 2 ["b0"]).MoveComponent
        1 0 2).Component 2 1 = some "b0" ∧
    ((((redisStorage.new "w" 0).withPayloads 1 ["x", "y"]).withPayloads 2 ["b0"]).MoveComponent
        1 0 2).Component 2 0 = some "x" ∧
    (((redisStorage.new "w" 0).withPayloads 1 ["x", "y"]).withPayloads 2 ["b0"]).Component 2 0
      = some "b0" := by
  decide

/-- C3, the code at a failing input: archetype 3 holds the payloads "a", "b", "c"
alongside the members 1, 2, 3; `SwapRemove(3, 0)` of the Redis adapter returns nil and
leaves "b", "c", whereas `Archetype.SwapRemove(0)` returns member 1 and leaves the
members 3, 2 (on payloads: returns "a" and leaves "c", "b"), so position 0 now pairs
member 3 with the payload "b" of member 2. -/
theorem redisStorage.SwapRemove_shifts :
    (((redisStorage.new "w" 0).withPayloads 3 ["a", "b", "c"]).SwapRemove 3 0).2 = none ∧
    (((redisStorage.new "w" 0).withPayloads 3 ["a", "b", "c"]).SwapRemove 3 0).1.payloadList 3
      = some ["b", "c"] ∧
    ((redisStorage.new "w" 0).withPayloads 3 ["a", "b", "c"]).Component 3 0 = some "a" ∧
    swapRemoveList ["a", "b", "c"] 0 = some ("a", ["c", "b"]) ∧
    (Archetype.mk 3 [1, 2, 3] ⟨[0]⟩).SwapRemove 0 = some (1, Archetype.mk 3 [3, 2] ⟨[0]⟩) := by
  decide

/-- C4, the code at a failing input: archetype 3 holds one payload "a" (n = 1);
after `PushComponent` of a component whose `New()` gives "b" succeeds, `Component(3, 1)`
reads "a" and the new payload "b" is read at position 0, where "a" was before. -/
theorem redisStorage.PushComponent_prepends :
    ((redisStorage.new "w" 0).withPayloads 3 ["a"]).payloadList 3 = some ["a"] ∧
    (((redisStorage.new "w" 0).withPayloads 3 ["a"]).PushComponent (.ok "b") 3).2 = none ∧
    (((redisStorage.new "w" 0).withPayloads 3 ["a"]).PushComponent (.ok "b") 3).1.Component 3 1
      = some "a" ∧
    (((redisStorage.new "w" 0).withPayloads 3 ["a"]).PushComponent (.ok "b") 3).1.Component 3 0
      = some "b" ∧
    ((redisStorage.new "w" 0).withPayloads 3 ["a"]).Component 3 0 = some "a" := by
  decide

/-- C5: for a payload list `l`, an in-range position P and a payload b,
`SetComponent(A, P, b)` followed by `Component(A, P)` returns exactly b, and
`SetComponent` changes neither the length of the list nor the payload read back at any
other position. -/
theorem redisStorage.SetComponent_roundtrip (r : redisStorage) (A : ArchetypeIndex)
    (P : Cardinal.ComponentIndex) (b : Bytes) (l : List Bytes)
    (hl : r.payloadList A = some l) (h0 : 0 ≤ P) (hP : P < l.length) :
    (r.SetComponent A P b).Component A P = some b ∧
    (∃ l2, (r.SetComponent A P b).payloadList A = some l2 ∧ l2.length = l.length) ∧
    (∀ Q : Cardinal.ComponentIndex, 0 ≤ Q → Q ≠ P →
      (r.SetComponent A P b).Component A Q = r.Component A Q) := by
  have hset := redisStorage.SetComponent_payloadList r A P b l hl h0 hP
  delta Cardinal.ComponentIndex at *
  have hPc := Int.toNat_of_nonneg h0
  have hPn : P.toNat < l.length := by omega
  refine ⟨?_, ⟨_, hset, by simp⟩, ?_⟩
  · rw [redisStorage.Component_eq _ A P _ hset h0]
    exact List.getElem?_set_self hPn
  · intro Q hQ hne
    rw [redisStorage.Component_eq _ A Q _ hset hQ, redisStorage.Component_eq _ A Q _ hl hQ]
    have hQc := Int.toNat_of_nonneg hQ
    have : P.toNat ≠ Q.toNat := by omega
    exact List.getElem?_set_ne this

/-- C5, on the list "a", "b", "c" at position 1 with the payload "zz". -/
theorem redisStorage.SetComponent_roundtrip_witness :
    (((redisStorage.new "w" 0).withPayloads 3 ["a", "b", "c"]).SetComponent 3 1 "zz").Component
        3 1 = some "zz" ∧
    (∃ l2, (((redisStorage.new "w" 0).withPayloads 3 ["a", "b", "c"]).SetComponent 3 1
        "zz").payloadList 3 = some l2 ∧ l2.length = ["a", "b", "c"].length) ∧
    (∀ Q : Cardinal.ComponentIndex, 0 ≤ Q → Q ≠ 1 →
      (((redisStorage.new "w" 0).withPayloads 3 ["a", "b", "c"]).SetComponent 3 1
        "zz").Component 3 Q =
      ((redisStorage.new "w" 0).withPayloads 3 ["a", "b", "c"]).Component 3 Q) :=
  redisStorage.SetComponent_roundtrip ((redisStorage.new "w" 0).withPayloads 3 ["a", "b", "c"])
    3 1 "zz" ["a", "b", "c"] (by decide) (by decide) (by decide)

/-- C8: from a state in which the counter of (component type, archetype) is stored and
equals the length of the payload list `l`, `PushComponent` followed by `IncrementIndex`
(for a list shorter than the largest 64-bit integer) and `SwapRemove` at an in-range
position followed by `DecrementIndex` each end in a state in which the stored counter
again equals the length of the list; `IncrementIndex` alone raises the stored count by
exactly one and `DecrementIndex` alone lowers it by exactly one. -/
theorem redisStorage.count_index_agrees (r : redisStorage) (A : ArchetypeIndex)
    (l : List Bytes) (hl : r.payloadList A = some l)
    (hidx : r.ComponentIndex A = ((l.length : Int), true)) :
    (∀ b : Bytes, (l.length : Int) < maxInt64 →
      ∃ l2, ((r.PushComponent (.ok b) A).1.IncrementIndex A).payloadList A = some l2 ∧
        l2.length = l.length + 1 ∧
        ((r.PushComponent (.ok b) A).1.IncrementIndex A).ComponentIndex A =
          ((l2.length : Int), true)) ∧
    (∀ P : Cardinal.ComponentIndex, 0 ≤ P → P < l.length →
      ∃ l2, ((r.SwapRemove A P).1.DecrementIndex A).payloadList A = some l2 ∧
        l2.length + 1 = l.length ∧
        ((r.SwapRemove A P).1.DecrementIndex A).ComponentIndex A =
          ((l2.length : Int), true)) ∧
    ((l.length : Int) < maxInt64 →
      (r.IncrementIndex A).ComponentIndex A = ((l.length : Int) + 1, true)) ∧
    (r.DecrementIndex A).ComponentIndex A = ((l.length : Int) - 1, true) := by
  have hrange := redisStorage.ComponentIndex_range r A
  rw [hidx] at hrange
  simp only at hrange
  delta Cardinal.ComponentIndex at *
  have hmin : minInt64 = -9223372036854775808 := by norm_num [minInt64]
  have hmax : maxInt64 = 9223372036854775807 := by norm_num [maxInt64]
  rw [hmin, hmax] at hrange
  refine ⟨?_, ?_, ?_, ?_⟩
  · intro b hfit
    rw [hmax] at hfit
    refine ⟨b :: l, ?_, by simp, ?_⟩
    · rw [redisStorage.payloadList_IncrementIndex]
      exact redisStorage.PushComponent_payloadList r A b l hl
    · rw [redisStorage.ComponentIndex_IncrementIndex,
        redisStorage.ComponentIndex_PushComponent, hidx]
      simp only [List.length_cons, Nat.cast_add, Nat.cast_one]
      rw [wrapInt64_of_inRange _ (by rw [hmin]; omega) (by rw [hmax]; omega)]
  · intro P h0 hP
    have hPc := Int.toNat_of_nonneg h0
    have hPn : P.toNat < l.length := by omega
    have hdel := redisStorage.delete_payloadList r A P l hl h0 hP
    have hlen := removeFirst_one_length "DELETE" (l.set P.toNat "DELETE")
      (List.mem_set l P.toNat hPn "DELETE")
    rw [List.length_set] at hlen
    refine ⟨_, ?_, hlen, ?_⟩
    · rw [redisStorage.payloadList_DecrementIndex]
      exact hdel
    · rw [redisStorage.ComponentIndex_DecrementIndex]
      have hci : (r.SwapRemove A P).1.ComponentIndex A = r.ComponentIndex A :=
        redisStorage.ComponentIndex_delete r A A P
      rw [hci, hidx]
      simp only
      rw [wrapInt64_of_inRange _ (by rw [hmin]; omega) (by rw [hmax]; omega)]
      congr 1
      omega
  · intro hfit
    rw [hmax] at hfit
    rw [redisStorage.ComponentIndex_IncrementIndex, hidx]
    simp only
    rw [wrapInt64_of_inRange _ (by rw [hmin]; omega) (by rw [hmax]; omega)]
  · rw [redisStorage.ComponentIndex_DecrementIndex, hidx]
    simp only
    by_cases hz : l.length = 0
    · rw [hz]; decide
    · rw [wrapInt64_of_inRange _ (by rw [hmin]; omega) (by rw [hmax]; omega)]

/-- C8, from the state whose archetype 3 holds the payload "a" with the counter 1. -/
theorem redisStorage.count_index_agrees_witness :
    (∃ l2, (((((redisStorage.new "w" 0).withPayloads 3 ["a"]).SetIndex 3 1).PushComponent
          (.ok "b") 3).1.IncrementIndex 3).payloadList 3 = some l2 ∧
        l2.length = ["a"].length + 1 ∧
        (((((redisStorage.new "w" 0).withPayloads 3 ["a"]).SetIndex 3 1).PushComponent
          (.ok "b") 3).1.IncrementIndex 3).ComponentIndex 3 = ((l2.length : Int), true)) ∧
    (∃ l2, (((((redisStorage.new "w" 0).withPayloads 3 ["a"]).SetIndex 3 1).SwapRemove
          3 0).1.DecrementIndex 3).payloadList 3 = some l2 ∧
        l2.length + 1 = ["a"].length ∧
        (((((redisStorage.new "w" 0).withPayloads 3 ["a"]).SetIndex 3 1).SwapRemove
          3 0).1.DecrementIndex 3).ComponentIndex 3 = ((l2.length : Int), true)) :=
  ⟨(redisStorage.count_index_agrees
      (((redisStorage.new "w" 0).withPayloads 3 ["a"]).SetIndex 3 1) 3 ["a"]
      (by decide) (by decide)).1 "b" (by decide),
   (redisStorage.count_index_agrees
      (((redisStorage.new "w" 0).withPayloads 3 ["a"]).SetIndex 3 1) 3 ["a"]
      (by decide) (by decide)).2.1 0 (by decide) (by decide)⟩

/-! ### Removal through the sentinel -/

theorem set_erase_eq_eraseIdx (v : Bytes) : ∀ (l : List Bytes) (n : Nat),
    v ∉ l.take n → n < l.length → (l.set n v).erase v = l.eraseIdx n
  | [], _, _, h => by simp at h
  | x :: xs, 0, _, _ => by simp
  | x :: xs, n + 1, hno, h => by
    have hx : x ≠ v := by
      intro hxv; apply hno; rw [hxv]; simp
    have hno2 : v ∉ xs.take n := by
      intro hmem; apply hno; simp [hmem]
    have hlen : n < xs.length := by simpa using h
    have hbeq : (x == v) = false := by simpa using hx
    rw [List.set_cons_succ, List.erase_cons, hbeq, List.eraseIdx_cons_succ,
      set_erase_eq_eraseIdx v xs n hno2 hlen]
    simp

theorem set_perm_cons_eraseIdx (v : Bytes) : ∀ (l : List Bytes) (n : Nat),
    n < l.length → (l.set n v).Perm (v :: l.eraseIdx n)
  | [], _, h => by simp at h
  | x :: xs, 0, _ => by simp
  | x :: xs, n + 1, h => by
    have hlen : n < xs.length := by simpa using h
    rw [List.set_cons_succ, List.eraseIdx_cons_succ]
    exact ((set_perm_cons_eraseIdx v xs n hlen).cons x).trans (List.Perm.swap v x _)

theorem set_erase_perm_eraseIdx (v : Bytes) (l : List Bytes) (n : Nat) (h : n < l.length) :
    ((l.set n v).erase v).Perm (l.eraseIdx n) := by
  have h1 := (set_perm_cons_eraseIdx v l n h).erase v
  simpa using h1

theorem set_same_of_getElem? (x : Bytes) : ∀ (l : List Bytes) (n : Nat),
    l[n]? = some x → l.set n x = l
  | [], _, h => by simp at h
  | y :: ys, 0, h => by simp at h; simp [h]
  | y :: ys, n + 1, h => by
    rw [List.getElem?_cons_succ] at h
    rw [List.set_cons_succ, set_same_of_getElem? x ys n h]

theorem eraseIdx_perm_erase (l : List Bytes) (n : Nat) (x : Bytes) (h : l[n]? = some x) :
    (l.eraseIdx n).Perm (l.erase x) := by
  obtain ⟨hn, _⟩ := List.getElem?_eq_some.mp h
  have hset : l.set n x = l := set_same_of_getElem? x l n h
  have h1 := (set_perm_cons_eraseIdx x l n hn).erase x
  rw [hset] at h1
  simpa using h1.symm

/-- The source list of `MoveComponent` after the move, for a destination other than the
source: the sentinel is written to slot P and its first occurrence removed. -/
theorem redisStorage.MoveComponent_source (r : redisStorage) (A B : ArchetypeIndex)
    (P : Cardinal.ComponentIndex) (l : List Bytes) (hAB : B ≠ A)
    (hl : r.payloadList A = some l) (h0 : 0 ≤ P) (hP : P < l.length) :
    (r.MoveComponent A P B).payloadList A =
      some (removeFirst "DELETE" 1 (l.set P.toNat "DELETE")) := by
  have hk : r.componentDataKey A ≠ r.componentDataKey B :=
    fun h => hAB (redisStorage.dataKey_injective r A B h).symm
  have h1 := Redis.LSet_listAt r.c (r.componentDataKey A) P "DELETE" l hl h0 hP
  unfold redisStorage.MoveComponent redisStorage.payloadList
  dsimp only
  apply Redis.LRem_one_listAt
  rw [Redis.listAt_eq_of_eq _ _ _ (Redis.LPush_other _ _ _ _ hk)]
  exact h1

/-- C12: for a payload list `l` none of whose payloads is the sentinel "DELETE" and an
in-range position P, the removal of the Redis adapter (`delete`, hence `SwapRemove`, and
the source side of `MoveComponent`) leaves exactly `l` with the element at P erased:
every position below P reads the same payload as before and the payload formerly at a
position Q > P is read at position Q - 1. -/
theorem redisStorage.delete_erases (r : redisStorage) (A : ArchetypeIndex)
    (P : Cardinal.ComponentIndex) (l : List Bytes) (hl : r.payloadList A = some l)
    (hno : "DELETE" ∉ l) (h0 : 0 ≤ P) (hP : P < l.length) :
    (r.delete A P).payloadList A = some (l.eraseIdx P.toNat) ∧
    (r.SwapRemove A P).1.payloadList A = some (l.eraseIdx P.toNat) ∧
    (∀ B : ArchetypeIndex, B ≠ A →
      (r.MoveComponent A P B).payloadList A = some (l.eraseIdx P.toNat)) ∧
    (∀ Q : Cardinal.ComponentIndex, 0 ≤ Q → Q < P →
      (r.delete A P).Component A Q = r.Component A Q) ∧
    (∀ Q : Cardinal.ComponentIndex, P < Q →
      (r.delete A P).Component A (Q - 1) = r.Component A Q) := by
  delta Cardinal.ComponentIndex at *
  have hPc := Int.toNat_of_nonneg h0
  have hPn : P.toNat < l.length := by omega
  have hno2 : "DELETE" ∉ l.take P.toNat := fun h => hno (List.mem_of_mem_take h)
  have herase : removeFirst "DELETE" 1 (l.set P.toNat "DELETE") = l.eraseIdx P.toNat := by
    rw [removeFirst_one_eq_erase]
    exact set_erase_eq_eraseIdx "DELETE" l P.toNat hno2 hPn
  have hdel : (r.delete A P).payloadList A = some (l.eraseIdx P.toNat) := by
    rw [← herase]; exact redisStorage.delete_payloadList r A P l hl h0 hP
  refine ⟨hdel, hdel, ?_, ?_, ?_⟩
  · intro B hB
    rw [← herase]
    exact redisStorage.MoveComponent_source r A B P l hB hl h0 hP
  · intro Q hQ0 hQP
    have hQc := Int.toNat_of_nonneg hQ0
    rw [redisStorage.Component_eq _ A Q _ hdel hQ0, redisStorage.Component_eq _ A Q _ hl hQ0]
    exact List.getElem?_eraseIdx_of_lt l P.toNat Q.toNat (by omega)
  · intro Q hPQ
    have hQ0 : (0 : Int) ≤ Q := by omega
    have hQ1 : (0 : Int) ≤ Q - 1 := by omega
    have hQc := Int.toNat_of_nonneg hQ0
    have hQ1c := Int.toNat_of_nonneg hQ1
    rw [redisStorage.Component_eq _ A (Q - 1) _ hdel hQ1,
      redisStorage.Component_eq _ A Q _ hl hQ0,
      List.getElem?_eraseIdx_of_ge l P.toNat (Q - 1).toNat (by omega)]
    have : (Q - 1).toNat + 1 = Q.toNat := by omega
    rw [this]

/-- C12, on the list "a", "b", "c" at position 1. -/
theorem redisStorage.delete_erases_witness :
    (((redisStorage.new "w" 0).withPayloads 3 ["a", "b", "c"]).delete 3 1).payloadList 3 =
      some (["a", "b", "c"].eraseIdx (1 : Int).toNat) ∧
    (((redisStorage.new "w" 0).withPayloads 3 ["a", "b", "c"]).delete 3 1).Component 3 (2 - 1) =
      ((redisStorage.new "w" 0).withPayloads 3 ["a", "b", "c"]).Component 3 2 :=
  ⟨(redisStorage.delete_erases ((redisStorage.new "w" 0).withPayloads 3 ["a", "b", "c"]) 3 1
      ["a", "b", "c"] (by decide) (by decide) (by decide) (by decide)).1,
   (redisStorage.delete_erases ((redisStorage.new "w" 0).withPayloads 3 ["a", "b", "c"]) 3 1
      ["a", "b", "c"] (by decide) (by decide) (by decide) (by decide)).2.2.2.2 2 (by decide)⟩

/-- C13, the code at two failing inputs. Archetype 1 holds "a" and archetype 2 holds
"b0": position 5 is outside archetype 1's list and `Component(1, 5)` is nil, yet
`MoveComponent(1, 5, 2)` leaves archetype 2 with an empty payload in front of "b0".
Archetype 1 holds "DELETE", "a": `MoveComponent(1, 5, 2)` and `SwapRemove(1, 5)` both
drop the stored payload "DELETE" from archetype 1. -/
theorem redisStorage.failed_lookup_changes_lists :
    (((redisStorage.new "w" 0).withPayloads 1 ["a"]).withPayloads 2 ["b0"]).Component 1 5
      = none ∧
    ((((redisStorage.new "w" 0).withPayloads 1 ["a"]).withPayloads 2 ["b0"]).MoveComponent
        1 5 2).payloadList 2 = some ["", "b0"] ∧
    ((((redisStorage.new "w" 0).withPayloads 1 ["a"]).withPayloads 2 ["b0"]).MoveComponent
        1 5 2).payloadList 1 = some ["a"] ∧
    ((((redisStorage.new "w" 0).withPayloads 1 ["DELETE", "a"]).withPayloads 2
        ["b0"]).MoveComponent 1 5 2).payloadList 1 = some ["a"] ∧
    (((redisStorage.new "w" 0).withPayloads 1 ["DELETE", "a"]).SwapRemove 1 5).1.payloadList 1
      = some ["a"] ∧
    (((redisStorage.new "w" 0).withPayloads 1 ["a"]).SwapRemove 1 5).1.payloadList 1
      = some ["a"] := by
  decide

/-- C14: for every payload list `l`, with or without payloads equal to the sentinel
"DELETE", and every in-range position P, the sentinel-based removal leaves a list one
entry shorter whose payloads, as a multiset, are those of `l` minus one copy of the
payload that was at P; the list is a rearrangement of `l` with position P erased, and
it is exactly that list when no sentinel-valued payload is stored before P. -/
theorem redisStorage.delete_multiset (r : redisStorage) (A : ArchetypeIndex)
    (P : Cardinal.ComponentIndex) (l : List Bytes) (hl : r.payloadList A = some l)
    (h0 : 0 ≤ P) (hP : P < l.length) :
    ∃ l2, (r.delete A P).payloadList A = some l2 ∧
      (r.SwapRemove A P).1.payloadList A = some l2 ∧
      l2.length + 1 = l.length ∧
      (∀ x, l[P.toNat]? = some x → (l2 : Multiset Bytes) = (l : Multiset Bytes).erase x) ∧
      l2.Perm (l.eraseIdx P.toNat) ∧
      ("DELETE" ∉ l.take P.toNat → l2 = l.eraseIdx P.toNat) := by
  delta Cardinal.ComponentIndex at *
  have hPc := Int.toNat_of_nonneg h0
  have hPn : P.toNat < l.length := by omega
  have hdel := redisStorage.delete_payloadList r A P l hl h0 hP
  rw [removeFirst_one_eq_erase] at hdel
  have hperm := set_erase_perm_eraseIdx "DELETE" l P.toNat hPn
  refine ⟨_, hdel, hdel, ?_, ?_, hperm, ?_⟩
  · rw [hperm.length_eq, List.length_eraseIdx, if_pos hPn]
    omega
  · intro x hx
    rw [Multiset.coe_erase, Multiset.coe_eq_coe]
    exact hperm.trans (eraseIdx_perm_erase l P.toNat x hx)
  · intro hno
    exact set_erase_eq_eraseIdx "DELETE" l P.toNat hno hPn

/-- C14, on the list "DELETE", "x", "y" at position 1: the stored sentinel-valued
payload is the one removed and slot 1 keeps the sentinel. -/
theorem redisStorage.delete_multiset_witness :
    ∃ l2, (((redisStorage.new "w" 0).withPayloads 3 ["DELETE", "x", "y"]).delete 3 1).payloadList
        3 = some l2 ∧
      (((redisStorage.new "w" 0).withPayloads 3 ["DELETE", "x", "y"]).SwapRemove 3 1).1.payloadList
        3 = some l2 ∧
      l2.length + 1 = ["DELETE", "x", "y"].length ∧
      (∀ x, ["DELETE", "x", "y"][(1 : Int).toNat]? = some x →
        (l2 : Multiset Bytes) = (["DELETE", "x", "y"] : Multiset Bytes).erase x) ∧
      l2.Perm (["DELETE", "x", "y"].eraseIdx (1 : Int).toNat) ∧
      ("DELETE" ∉ ["DELETE", "x", "y"].take (1 : Int).toNat →
        l2 = ["DELETE", "x", "y"].eraseIdx (1 : Int).toNat) :=
  redisStorage.delete_multiset ((redisStorage.new "w" 0).withPayloads 3 ["DELETE", "x", "y"])
    3 1 ["DELETE", "x", "y"] (by decide) (by decide) (by decide)

/-! ## Properties of plugin_receipt.go -/

theorem addUint64_one (t endTick : Nat) (ht : t < endTick) (he : endTick < 2 ^ 64) :
    addUint64 t 1 = t + 1 := by
  unfold addUint64
  exact Nat.mod_eq_of_lt (by omega)

theorem subUint64_of_le (a b : Nat) (hb : b ≤ a) (ha : a < 2 ^ 64) :
    subUint64 a b = a - b := by
  unfold subUint64
  have hb2 : b % 2 ^ 64 = b := Nat.mod_eq_of_lt (by omega)
  rw [hb2]
  have : a + 2 ^ 64 - b = (a - b) + 2 ^ 64 := by omega
  rw [this, Nat.add_mod_right]
  exact Nat.mod_eq_of_lt (by omega)

theorem receiptsOfTick_tick (ctx : Context) (t : Nat) (e : receiptEntry)
    (h : e ∈ receiptsOfTick ctx t) : e.Tick = t := by
  unfold receiptsOfTick at h
  split at h
  · simp at h
  · obtain ⟨r, _, hr⟩ := List.mem_map.mp h
    rw [← hr]

theorem mem_receiptsOfTick (ctx : Context) (t : Nat) (e : receiptEntry) :
    e ∈ receiptsOfTick ctx t ↔
      ∃ rs r, ctx.GetTransactionReceiptsForTick t = .ok rs ∧ r ∈ rs ∧
        e.TxHash = r.TxHash ∧ e.Tick = t ∧ e.Result = r.Result ∧ e.Errors = r.Errs := by
  unfold receiptsOfTick
  cases hget : ctx.GetTransactionReceiptsForTick t with
  | error err => simp
  | ok rs =>
    simp only [List.mem_map, Except.ok.injEq]
    constructor
    · rintro ⟨r, hr, he⟩
      subst he
      exact ⟨rs, r, rfl, hr, rfl, rfl, rfl, rfl⟩
    · rintro ⟨rs2, r, hrs, hr, h1, h2, h3, h4⟩
      subst hrs
      refine ⟨r, hr, ?_⟩
      cases e
      simp only at h1 h2 h3 h4
      rw [h1, h2, h3, h4]

/-- With enough iterations the loop appends the receipts of every tick from `t` up to,
and not including, the end tick. -/
theorem receiptsLoop_eq (ctx : Context) (endTick : Nat) (he : endTick < 2 ^ 64) :
    ∀ (fuel t : Nat) (acc : List receiptEntry), t ≤ endTick → endTick - t ≤ fuel →
      receiptsLoop ctx endTick fuel t acc = acc ++ receiptsOfRange ctx t endTick := by
  intro fuel
  induction fuel with
  | zero =>
    intro t acc _ hf
    have : endTick - t = 0 := by omega
    simp [receiptsLoop, receiptsOfRange, this]
  | succ f ih =>
    intro t acc ht hf
    unfold receiptsLoop
    by_cases hlt : t < endTick
    · rw [if_pos hlt, addUint64_one t endTick hlt he]
      have hrange : receiptsOfRange ctx t endTick =
          receiptsOfTick ctx t ++ receiptsOfRange ctx (t + 1) endTick := by
        unfold receiptsOfRange
        have : endTick - t = (endTick - (t + 1)) + 1 := by omega
        rw [this, List.range'_succ, List.flatMap_cons]
      rw [hrange]
      cases hget : ctx.GetTransactionReceiptsForTick t with
      | error err =>
        simp only [receiptsOfTick, hget]
        rw [ih (t + 1) acc (by omega) (by omega)]
        simp
      | ok rs =>
        simp only [receiptsOfTick, hget]
        by_cases hz : rs.length = 0
        · rw [if_pos hz, ih (t + 1) acc (by omega) (by omega)]
          have : rs = [] := List.length_eq_zero.mp hz
          simp [this]
        · rw [if_neg hz, ih (t + 1) _ (by omega) (by omega)]
          have hmap : rs.map (receiptEntryOf t) = rs.map (fun r =>
              { TxHash := r.TxHash, Tick := t, Result := r.Result, Errors := r.Errs }) := rfl
          rw [hmap, List.append_assoc]
    · rw [if_neg hlt]
      have : endTick - t = 0 := by omega
      simp [receiptsOfRange, this]

theorem receiptsOfRange_mem (ctx : Context) (s e : Nat) (x : receiptEntry) :
    x ∈ receiptsOfRange ctx s e ↔
      ∃ t rs r, s ≤ t ∧ t < e ∧ ctx.GetTransactionReceiptsForTick t = .ok rs ∧ r ∈ rs ∧
        x.TxHash = r.TxHash ∧ x.Tick = t ∧ x.Result = r.Result ∧ x.Errors = r.Errs := by
  unfold receiptsOfRange
  simp only [List.mem_flatMap, List.mem_range'_1, mem_receiptsOfTick]
  constructor
  · rintro ⟨t, ⟨h1, h2⟩, rs, r, hget, hr, hx⟩
    exact ⟨t, rs, r, h1, by omega, hget, hr, hx⟩
  · rintro ⟨t, rs, r, h1, h2, hget, hr, hx⟩
    exact ⟨t, ⟨h1, by omega⟩, rs, r, hget, hr, hx⟩

theorem receiptsOfRange_sorted (ctx : Context) (s e : Nat) :
    ((receiptsOfRange ctx s e).map receiptEntry.Tick).Pairwise (fun a b => a ≤ b) := by
  unfold receiptsOfRange
  rw [List.pairwise_map, List.pairwise_flatMap]
  constructor
  · intro t _
    rw [List.pairwise_iff_forall_sublist]
    intro a b hab
    have ha := receiptsOfTick_tick ctx t a (hab.subset (by simp))
    have hb := receiptsOfTick_tick ctx t b (hab.subset (by simp))
    omega
  · refine (List.pairwise_lt_range' s (e - s)).imp ?_
    intro t1 t2 hlt a ha b hb
    have h1 := receiptsOfTick_tick ctx t1 a ha
    have h2 := receiptsOfTick_tick ctx t2 b hb
    omega

/-- C11: for a current tick c below 2^64, a history size s and a requested start tick
r, `queryReceipts` returns no error, EndTick = c and
StartTick = min(c, max(r, c - min(s, c))), so StartTick <= EndTick and
EndTick - StartTick <= s; the receipts are exactly those of the ticks t with
StartTick <= t < EndTick whose lookup succeeds, one entry per receipt carrying that
receipt's hash, result and errors and labelled with its tick t, in non-decreasing tick
order (more loop iterations would add nothing); EndTick itself is never included and
the list is empty when StartTick = EndTick, as when r >= c. -/
theorem queryReceipts_spec (ctx : Context) (req : listTxReceiptsRequest)
    (hc : ctx.CurrentTick < 2 ^ 64) :
    (queryReceipts ctx req).2 = none ∧
    (queryReceipts ctx req).1.EndTick = ctx.CurrentTick ∧
    (queryReceipts ctx req).1.StartTick =
      min ctx.CurrentTick (max req.StartTick
        (ctx.CurrentTick - min ctx.ReceiptHistorySize ctx.CurrentTick)) ∧
    (queryReceipts ctx req).1.StartTick ≤ (queryReceipts ctx req).1.EndTick ∧
    (queryReceipts ctx req).1.EndTick - (queryReceipts ctx req).1.StartTick ≤
      ctx.ReceiptHistorySize ∧
    (queryReceipts ctx req).1.Receipts =
      receiptsOfRange ctx (queryReceipts ctx req).1.StartTick
        (queryReceipts ctx req).1.EndTick ∧
    (∀ fuel, (queryReceipts ctx req).1.EndTick - (queryReceipts ctx req).1.StartTick ≤ fuel →
      receiptsLoop ctx (queryReceipts ctx req).1.EndTick fuel
        (queryReceipts ctx req).1.StartTick [] = (queryReceipts ctx req).1.Receipts) ∧
    (∀ x, x ∈ (queryReceipts ctx req).1.Receipts ↔
      ∃ t rs r, (queryReceipts ctx req).1.StartTick ≤ t ∧
        t < (queryReceipts ctx req).1.EndTick ∧
        ctx.GetTransactionReceiptsForTick t = .ok rs ∧ r ∈ rs ∧
        x.TxHash = r.TxHash ∧ x.Tick = t ∧ x.Result = r.Result ∧ x.Errors = r.Errs) ∧
    (∀ x ∈ (queryReceipts ctx req).1.Receipts,
      (queryReceipts ctx req).1.StartTick ≤ x.Tick ∧
        x.Tick < (queryReceipts ctx req).1.EndTick) ∧
    (((queryReceipts ctx req).1.Receipts.map receiptEntry.Tick).Pairwise
      (fun a b => a ≤ b)) ∧
    (∀ x ∈ (queryReceipts ctx req).1.Receipts,
      x.Tick ≠ (queryReceipts ctx req).1.EndTick) ∧
    ((queryReceipts ctx req).1.StartTick = (queryReceipts ctx req).1.EndTick →
      (queryReceipts ctx req).1.Receipts = []) ∧
    (ctx.CurrentTick ≤ req.StartTick → (queryReceipts ctx req).1.Receipts = []) := by
  have hstart : (queryReceipts ctx req).1.StartTick =
      min ctx.CurrentTick (max req.StartTick
        (ctx.CurrentTick - min ctx.ReceiptHistorySize ctx.CurrentTick)) := by
    simp only [queryReceipts]
    by_cases h1 : ctx.ReceiptHistorySize > ctx.CurrentTick
    · rw [if_pos h1]
      split_ifs <;> omega
    · rw [if_neg h1, subUint64_of_le _ _ (by omega) hc]
      split_ifs <;> omega
  have hend : (queryReceipts ctx req).1.EndTick = ctx.CurrentTick := rfl
  have hle : (queryReceipts ctx req).1.StartTick ≤ (queryReceipts ctx req).1.EndTick := by
    rw [hstart, hend]; omega
  have hloop : ∀ fuel,
      (queryReceipts ctx req).1.EndTick - (queryReceipts ctx req).1.StartTick ≤ fuel →
      receiptsLoop ctx (queryReceipts ctx req).1.EndTick fuel
        (queryReceipts ctx req).1.StartTick [] =
      receiptsOfRange ctx (queryReceipts ctx req).1.StartTick
        (queryReceipts ctx req).1.EndTick := by
    intro fuel hf
    rw [receiptsLoop_eq ctx _ (by rw [hend]; exact hc) fuel _ [] hle hf]
    simp
  have hrec : (queryReceipts ctx req).1.Receipts =
      receiptsOfRange ctx (queryReceipts ctx req).1.StartTick
        (queryReceipts ctx req).1.EndTick := hloop _ (le_refl _)
  have hempty : (queryReceipts ctx req).1.StartTick = (queryReceipts ctx req).1.EndTick →
      (queryReceipts ctx req).1.Receipts = [] := by
    intro heq
    rw [hrec, heq]
    simp [receiptsOfRange]
  refine ⟨rfl, hend, hstart, hle, ?_, hrec, ?_, ?_, ?_, ?_, ?_, hempty, ?_⟩
  · rw [hstart, hend]; omega
  · intro fuel hf
    rw [hloop fuel hf, ← hrec]
  · intro x
    rw [hrec]
    exact receiptsOfRange_mem ctx _ _ x
  · intro x hx
    rw [hrec] at hx
    obtain ⟨t, rs, r, h1, h2, _, _, _, hxt, _, _⟩ := (receiptsOfRange_mem ctx _ _ x).mp hx
    rw [hxt]
    exact ⟨h1, h2⟩
  · rw [hrec]
    exact receiptsOfRange_sorted ctx _ _
  · intro x hx
    rw [hrec] at hx
    obtain ⟨t, rs, r, _, h2, _, _, _, hxt, _, _⟩ := (receiptsOfRange_mem ctx _ _ x).mp hx
    omega
  · intro hcr
    apply hempty
    rw [hstart, hend]; omega

/-- C11, in a context at tick 5 with a history of 3 ticks: for the requested start tick
0 the reply starts at tick 2 and lists the receipt of tick 2 and the two of tick 3, each
with its own hash, result and errors and its tick; for the start tick 9 it is empty. -/
theorem queryReceipts_spec_witness :
    (queryReceipts sampleContext ⟨0⟩).1.StartTick = min 5 (max 0 (5 - min 3 5)) ∧
    (queryReceipts sampleContext ⟨0⟩).1.Receipts =
      [⟨"h2", 2, "r2", []⟩, ⟨"h3a", 3, "r3a", []⟩, ⟨"h3b", 3, "r3b", ["e"]⟩] ∧
    (queryReceipts sampleContext ⟨9⟩).1.Receipts = [] :=
  ⟨(queryReceipts_spec sampleContext ⟨0⟩ (by decide)).2.2.1,
   ((queryReceipts_spec sampleContext ⟨0⟩ (by decide)).2.2.2.2.2.1).trans (by decide),
   (queryReceipts_spec sampleContext ⟨9⟩ (by decide)).2.2.2.2.2.2.2.2.2.2.2.2 (by decide)⟩

/-- The reply in the sample context for the requested start tick 0: the ticks 2, 3 and
4 are read, tick 4 fails and tick 5 is not read. -/
theorem queryReceipts_sampleContext :
    queryReceipts sampleContext ⟨0⟩ =
      (⟨2, 5, [⟨"h2", 2, "r2", []⟩, ⟨"h3a", 3, "r3a", []⟩, ⟨"h3b", 3, "r3b", ["e"]⟩]⟩, none) := by
  decide

end Cardinal
